import Mathlib

/-!
Verification development for the intellgience-news pipeline.

The development shallowly embeds the repository's code:
* `src/pipeline.py` (`NewsAnalysisPipeline.run`) as `run` over an explicit
  collaborator record, producing the list of emitted events;
* `src/news_fetcher.py` (`NewsFetcher.fetch_news`) as `fetch_news` over abstract
  HTTP outcomes;
* the structured-response extractor and the analyzer/validator failure paths,
  whose source files (`llm_analyzer.py`, `llm_validator.py`) are not present in
  the repository snapshot, are modelled from the specification (see the
  doc comments marked "Modelled from the spec").
-/

deriving instance DecidableEq for Except

/-! ## Characters used by the JSON / fence machinery -/

/-- The backtick character. -/
def btick : Char := Char.ofNat 96

/-- The opening curly brace character. -/
def lbrace : Char := Char.ofNat 123

/-- The closing curly brace character. -/
def rbrace : Char := Char.ofNat 125

/-- The single-quote character, used in pipeline log messages. -/
def squote : String := String.singleton (Char.ofNat 39)

/-- Whitespace recognised by trimming (space, newline, tab, carriage return). -/
def isWsChar (c : Char) : Bool := c = ' ' || c = '\n' || c = '\t' || c = '\r'

/-- Trim whitespace from both ends of a character list. -/
def trimChars (cs : List Char) : List Char :=
  ((cs.dropWhile isWsChar).reverse.dropWhile isWsChar).reverse

/-! ## Flat JSON objects for the structured-response extractor

Modelled from the spec: the extractor lives in `llm_analyzer.py` /
`llm_validator.py`, which are not part of the repository snapshot under `src/`;
only their tests and callers are.  The spec (§4.2) describes the extractor as
recovering "a single JSON object" from model text.  The analysis and validation
schemas only use string- and boolean-valued fields, so JSON objects are
modelled as flat association lists of string/boolean literals, with a concrete
encoder (`jsonEncode`, the model of `json_encode`) and parser. -/

/-- A JSON literal value: a string or a boolean. -/
inductive Lit where
  | str : String → Lit
  | bool : Bool → Lit
deriving DecidableEq, Repr

/-- A flat JSON object: an association list from field names to literals. -/
abbrev JsonMap := List (String × Lit)

/-- Escape a single character for a JSON string (quote and backslash). -/
def escChar (c : Char) : List Char :=
  if c = '"' || c = '\\' then ['\\', c] else [c]

/-- Escape a character list for a JSON string. -/
def escList : List Char → List Char
  | [] => []
  | c :: cs => escChar c ++ escList cs

/-- Encode a literal as JSON characters. -/
def encLit : Lit → List Char
  | .str s => '"' :: (escList s.toList ++ ['"'])
  | .bool true => ['t', 'r', 'u', 'e']
  | .bool false => ['f', 'a', 'l', 's', 'e']

/-- Encode one object member as JSON characters. -/
def encMember (p : String × Lit) : List Char :=
  '"' :: (escList p.1.toList ++ '"' :: ':' :: encLit p.2)

/-- Encode the comma-separated member list of an object. -/
def encMembers : JsonMap → List Char
  | [] => []
  | [p] => encMember p
  | p :: q :: r => encMember p ++ ',' :: encMembers (q :: r)

/-- Encode a JSON object as characters, including the braces. -/
def encObjChars (m : JsonMap) : List Char :=
  lbrace :: (encMembers m ++ [rbrace])

/-- Modelled from the spec: `json_encode` of a mapping, producing the canonical
compact JSON text for a flat object. -/
def jsonEncode (m : JsonMap) : String := String.mk (encObjChars m)

/-- Parse the body of a JSON string after the opening quote; returns the
decoded characters and the remainder after the closing quote. -/
def parseStrAux : List Char → Option (List Char × List Char)
  | [] => none
  | c :: cs =>
    if c = '"' then some ([], cs)
    else if c = '\\' then
      match cs with
      | [] => none
      | e :: cs2 =>
        if e = '"' || e = '\\' then
          (parseStrAux cs2).map (fun p => (e :: p.1, p.2))
        else none
    else (parseStrAux cs).map (fun p => (c :: p.1, p.2))

/-- Parse a literal value (string or boolean). -/
def parseLit : List Char → Option (Lit × List Char)
  | 't' :: 'r' :: 'u' :: 'e' :: cs => some (.bool true, cs)
  | 'f' :: 'a' :: 'l' :: 's' :: 'e' :: cs => some (.bool false, cs)
  | '"' :: cs => (parseStrAux cs).map (fun p => (Lit.str (String.mk p.1), p.2))
  | _ => none

/-- Parse a nonempty comma-separated member list; fuel bounds recursion. -/
def parseMembers : Nat → List Char → Option (JsonMap × List Char)
  | 0, _ => none
  | fuel + 1, cs =>
    match cs with
    | [] => none
    | c :: cs1 =>
      if c = '"' then
        match parseStrAux cs1 with
        | none => none
        | some (key, r1) =>
          match r1 with
          | [] => none
          | d :: r2 =>
            if d = ':' then
              match parseLit r2 with
              | none => none
              | some (v, r3) =>
                match r3 with
                | [] => some ([(String.mk key, v)], [])
                | e :: r4 =>
                  if e = ',' then
                    match parseMembers fuel r4 with
                    | some (ms, r5) => some ((String.mk key, v) :: ms, r5)
                    | none => none
                  else some ([(String.mk key, v)], r3)
            else none
      else none

/-- Parse a complete JSON object, requiring the input to be exactly one
object with nothing before or after it. -/
def parseObjChars : List Char → Option JsonMap
  | [] => none
  | c :: cs =>
    if c = lbrace then
      match cs with
      | [] => none
      | d :: cs2 =>
        if d = rbrace then (if cs2.isEmpty then some [] else none)
        else
          match parseMembers cs.length cs with
          | none => none
          | some (ms, rem) =>
            match rem with
            | [] => none
            | e :: rem2 => if e = rbrace && rem2.isEmpty then some ms else none
    else none

/-- Does a character list open with a three-backtick fence? -/
def fenceOpen : List Char → Bool
  | a :: b :: c :: _ => a = btick && b = btick && c = btick
  | _ => false

/-- Drop the first line (through the first newline, if any); used to remove a
fence's language tag line. -/
def dropTagLine (cs : List Char) : List Char :=
  match cs.dropWhile (fun c => !(c = '\n')) with
  | [] => cs
  | _ :: rest => rest

/-- Modelled from the spec (§4.2 step 2): if the text is wrapped in a fenced
code block (with or without a language tag), strip the fence delimiters and
keep only the trimmed interior. -/
def stripFence (cs : List Char) : List Char :=
  if fenceOpen cs && fenceOpen cs.reverse then
    trimChars (dropTagLine ((cs.drop 3).reverse.drop 3).reverse)
  else cs

/-- First-brace-to-last-brace substring (§4.2 step 3 fallback). -/
def braceSub (cs : List Char) : Option (List Char) :=
  let t := cs.dropWhile (fun c => !(c = lbrace))
  let u := (t.reverse.dropWhile (fun c => !(c = rbrace))).reverse
  if u.isEmpty then none else some u

/-- Extractor failure: a parse failure or a schema failure naming the missing
required fields. -/
inductive ExtractErr where
  | parse
  | schema (missing : List String)
deriving DecidableEq, Repr

/-- The required fields absent from a mapping, in required-list order. -/
def requiredMissing (m : JsonMap) (required : List String) : List String :=
  required.filter (fun f => !(m.any (fun p => p.1 == f)))

/-- Check the required-field set (§4.2 step 4). -/
def checkRequired (m : JsonMap) (required : List String) : Except ExtractErr JsonMap :=
  if requiredMissing m required = [] then .ok m
  else .error (.schema (requiredMissing m required))

/-- Modelled from the spec (§4.2): the structured-response extractor.  Trims
the text, strips a surrounding code fence, parses a single JSON object (falling
back to the first-brace-to-last-brace substring), and verifies the required
fields, returning the parsed mapping unchanged. -/
def extractChars (cs : List Char) (required : List String) : Except ExtractErr JsonMap :=
  let t := stripFence (trimChars cs)
  match parseObjChars t with
  | some m => checkRequired m required
  | none =>
    match braceSub t with
    | some sub =>
      match parseObjChars sub with
      | some m => checkRequired m required
      | none => .error .parse
    | none => .error .parse

/-- Modelled from the spec (§4.2): string-level entry point of the extractor. -/
def extract (text : String) (required : List String) : Except ExtractErr JsonMap :=
  extractChars text.toList required

/-! ## Data model of the pipeline (`src/pipeline.py`, `src/news_fetcher.py`) -/

/-- A normalized news article as produced by `NewsFetcher.fetch_news`. -/
structure Article where
  title : String
  description : String
  content : String
  url : String
  publishedAt : String
  source : String
deriving DecidableEq, Repr

/-- An analysis record as produced by the analyzer (spec §3): `gist`,
`sentiment`, `tone`, plus an optional `error` on the degraded path. -/
structure AnalysisResult where
  gist : String
  sentiment : String
  tone : Option String := none
  error : Option String := none
deriving DecidableEq, Repr

/-- A validation record as produced by the validator (spec §3). -/
structure ValidationResult where
  is_valid : Bool
  notes : String
  error : Option String := none
deriving DecidableEq, Repr

/-- The caller-facing projection of one article built in
`NewsAnalysisPipeline.run` for the `result` event. -/
structure FinalArticle where
  id : Nat
  title : String
  sentiment : String
  validationPassed : Bool
  validationNote : String
  summary : String
  url : String
deriving DecidableEq, Repr

/-- An event yielded by `run`.  The source yields dictionaries
`{'event': kind, 'data': json.dumps(payload)}`; the payload of each kind is
carried structurally here and `eventData`/`eventDict` below recover the
serialized form. -/
inductive Event where
  | log (message step : String)
  | result (articles : List FinalArticle)
  | full_result (validated : List (Article × AnalysisResult × ValidationResult))
      (raw : List Article)
  | error (message : String)
  | close
deriving DecidableEq, Repr

/-- The `event` key of the yielded dictionary. -/
def Event.kind : Event → String
  | .log _ _ => "log"
  | .result _ => "result"
  | .full_result _ _ => "full_result"
  | .error _ => "error"
  | .close => "close"

/-- The collaborators `run` awaits: the fetcher result and the per-article
analyzer and validator calls.  `Except.error` models a raised exception, which
`run`'s surrounding `try`/`except` converts into a terminal `error` event. -/
structure Collab where
  fetch : Except String (List Article)
  analyze : Article → Except String AnalysisResult
  validate : Article → AnalysisResult → Except String ValidationResult

/-- `f"Initializing pipeline for '{topic}' ({count} articles)..."`. -/
def initMsg (topic : String) (count : Nat) : String :=
  "Initializing pipeline for " ++ squote ++ topic ++ squote ++ " (" ++
    toString count ++ " articles)..."

/-- The INIT log event. -/
def initEv (topic : String) (count : Nat) : Event := .log (initMsg topic count) "fetch"

/-- The "Connecting to NewsAPI..." log event. -/
def connectEv : Event := .log "Connecting to NewsAPI..." "fetch"

/-- The "Retrieved n articles successfully" log event. -/
def retrievedEv (n : Nat) : Event :=
  .log ("Retrieved " ++ toString n ++ " articles successfully") "fetch"

/-- The "Starting LLM Analysis (Stage 1)..." log event. -/
def startAnalyzeEv : Event := .log "Starting LLM Analysis (Stage 1)..." "analyze"

/-- The per-article analysis-loop log event. -/
def analyzeLogEv (idx n : Nat) : Event :=
  .log ("Analyzed article " ++ toString idx ++ "/" ++ toString n ++
    ": Analyzing...") "analyze"

/-- The "Analysis stage 1 complete - moving to validation" log event. -/
def analysisDoneEv : Event :=
  .log "Analysis stage 1 complete - moving to validation" "analyze"

/-- The "Starting LLM Validation (Stage 2)..." log event. -/
def startValidateEv : Event := .log "Starting LLM Validation (Stage 2)..." "validate"

/-- The per-article validation-loop log event. -/
def validateLogEv (idx n : Nat) : Event :=
  .log ("Validating article " ++ toString idx ++ "/" ++ toString n ++ "...") "validate"

/-- The "All articles validated successfully" log event. -/
def allValidatedEv : Event := .log "All articles validated successfully" "validate"

/-- The "Pipeline complete - results ready" log event. -/
def pipelineCompleteEv : Event := .log "Pipeline complete - results ready" "done"

/-- The message of the `except`-branch error event. -/
def internalErrMsg (msg : String) : String := "Internal Server Error: " ++ msg

/-- The frontend projection appended to `final_articles` in `run`. -/
def projectArticle (idx : Nat) (a : Article) (ana : AnalysisResult)
    (v : ValidationResult) : FinalArticle :=
  { id := idx
    title := a.title
    sentiment := ana.sentiment.toLower
    validationPassed := v.is_valid
    validationNote := v.notes
    summary := ana.gist
    url := a.url }

/-- The Stage-1 loop of `run`: for each article in order, yield the progress
log, then await the analyzer; a raised exception (`Except.error`) stops the
loop and is reported as the third component. -/
def analyzeLoop (c : Collab) (arts : List Article) (idx n : Nat) :
    List Event × List (Article × AnalysisResult) × Option String :=
  match arts with
  | [] => ([], [], none)
  | a :: rest =>
    match c.analyze a with
    | .error msg => ([analyzeLogEv idx n], [], some msg)
    | .ok ana =>
      match analyzeLoop c rest (idx + 1) n with
      | (evs, ps, err) => (analyzeLogEv idx n :: evs, (a, ana) :: ps, err)

/-- The Stage-2 loop of `run`: for each analyzed article in order, yield the
progress log, await the validator, and accumulate both the full record and the
frontend projection. -/
def validateLoop (c : Collab) (pairs : List (Article × AnalysisResult)) (idx n : Nat) :
    List Event × List (Article × AnalysisResult × ValidationResult) ×
      List FinalArticle × Option String :=
  match pairs with
  | [] => ([], [], [], none)
  | (a, ana) :: rest =>
    match c.validate a ana with
    | .error msg => ([validateLogEv idx n], [], [], some msg)
    | .ok v =>
      match validateLoop c rest (idx + 1) n with
      | (evs, fs, fins, err) =>
        (validateLogEv idx n :: evs, (a, ana, v) :: fs,
          projectArticle idx a ana v :: fins, err)

/-- `NewsAnalysisPipeline.run` (src/pipeline.py): the full event sequence of
one pipeline run over the given collaborators. -/
def run (c : Collab) (topic : String) (count : Nat) : List Event :=
  match c.fetch with
  | .error msg =>
    [initEv topic count, connectEv, Event.error (internalErrMsg msg)]
  | .ok articles =>
    if articles.isEmpty then
      [initEv topic count, connectEv, Event.error "No articles found or API error."]
    else
      let n := articles.length
      let hd := [initEv topic count, connectEv, retrievedEv n, startAnalyzeEv]
      match analyzeLoop c articles 1 n with
      | (aEvs, _, some msg) => hd ++ aEvs ++ [Event.error (internalErrMsg msg)]
      | (aEvs, pairs, none) =>
        match validateLoop c pairs 1 pairs.length with
        | (vEvs, _, _, some msg) =>
          hd ++ aEvs ++ [analysisDoneEv, startValidateEv] ++ vEvs ++
            [Event.error (internalErrMsg msg)]
        | (vEvs, fulls, finals, none) =>
          hd ++ aEvs ++ [analysisDoneEv, startValidateEv] ++ vEvs ++
            [allValidatedEv, pipelineCompleteEv, Event.result finals,
              Event.full_result fulls articles, Event.close]

/-- The payloads of all `result` events in an event sequence. -/
def resultLists (evs : List Event) : List (List FinalArticle) :=
  evs.filterMap (fun e => match e with | .result l => some l | _ => none)

/-- Number of events of a given kind. -/
def countKind (k : String) (evs : List Event) : Nat :=
  (evs.filter (fun e => e.kind == k)).length

/-! ## Analyzer and validator failure paths

Modelled from the spec: `llm_analyzer.py` and `llm_validator.py` are not in
the repository snapshot under `src/`; their behaviour is pinned by spec §4.1,
§4.2, §7 and the tests in `src/tests/`.  The single model call is abstracted as
an `Except String String` (a raised transport error or the raw model text). -/

/-- The required-field schema of the analysis prompt (spec §3). -/
def analysisRequired : List String := ["gist", "sentiment", "tone"]

/-- The required-field schema of the validation prompt (spec §3). -/
def validationRequired : List String := ["is_valid", "notes"]

/-- Human-readable message of an extraction failure; a schema failure names
the missing fields (asserted by `test_missing_required_fields`). -/
def errText : ExtractErr → String
  | .parse => "Failed to parse JSON from model response"
  | .schema missing => "Missing required fields: " ++ String.intercalate ", " missing

/-- Dictionary-style string lookup with default. -/
def getStr (m : JsonMap) (k dflt : String) : String :=
  match m.lookup k with
  | some (.str s) => s
  | _ => dflt

/-- Dictionary-style boolean lookup with default. -/
def getBool (m : JsonMap) (k : String) (dflt : Bool) : Bool :=
  match m.lookup k with
  | some (.bool b) => b
  | _ => dflt

/-- Modelled from the spec (§4.1): the degraded analysis record returned when
analysis of one article fails. -/
def degradedAnalysis (msg : String) : AnalysisResult :=
  { gist := "Unable to analyze article", sentiment := "neutral",
    tone := none, error := some msg }

/-- Modelled from the spec (§4.1, §4.2, §7): one analyzer call.  A transport
failure or an extraction failure degrades to `degradedAnalysis`; on success the
extracted mapping is read out. -/
def runAnalyzer (modelOut : Except String String) : AnalysisResult :=
  match modelOut with
  | .error msg => degradedAnalysis msg
  | .ok text =>
    match extract text analysisRequired with
    | .ok m =>
      { gist := getStr m "gist" "", sentiment := getStr m "sentiment" "neutral",
        tone := some (getStr m "tone" ""), error := none }
    | .error e => degradedAnalysis (errText e)

/-- Modelled from the spec (§4.1) and `test_api_error_returns_failure` /
`test_missing_required_fields`: the degraded validation record. -/
def degradedValidation (msg : String) : ValidationResult :=
  { is_valid := false, notes := "Validation failed due to error", error := some msg }

/-- Modelled from the spec (§4.1, §4.2, §7): one validator call. -/
def runValidator (modelOut : Except String String) : ValidationResult :=
  match modelOut with
  | .error msg => degradedValidation msg
  | .ok text =>
    match extract text validationRequired with
    | .ok m =>
      { is_valid := getBool m "is_valid" false, notes := getStr m "notes" "",
        error := none }
    | .error e => degradedValidation (errText e)

/-! ## The news fetcher (`src/news_fetcher.py`) -/

/-- A raw article from the NewsAPI response body; `none` models a missing
key (the source reads every key with `.get` and a default). -/
structure RawArticle where
  title : Option String
  description : Option String
  content : Option String
  url : Option String
  publishedAt : Option String
  sourceName : Option String
deriving DecidableEq, Repr

/-- The decoded JSON body of a NewsAPI response. -/
structure ApiBody where
  status : Option String
  message : Option String
  articles : Option (List RawArticle)
deriving DecidableEq, Repr

/-- An HTTP response: status code and decoded body. -/
structure HttpResponse where
  status_code : Nat
  body : ApiBody
deriving DecidableEq, Repr

/-- The outcome of one `client.get` call: a response, or one of the raised
exceptions handled by `fetch_news`. -/
inductive GetResult where
  | ok (resp : HttpResponse)
  | timeout
  | requestError (msg : String)
  | otherExn (msg : String)
deriving DecidableEq, Repr

/-- The cleanup of one raw article: skipped when title or description is
missing or empty, otherwise normalized with stripped fields and defaults. -/
def cleanArticle (a : RawArticle) : Option Article :=
  if (a.title.getD "") = "" || (a.description.getD "") = "" then none
  else
    some { title := (a.title.getD "").trim
           description := (a.description.getD "").trim
           content := (a.content.getD "").trim
           url := a.url.getD ""
           publishedAt := a.publishedAt.getD ""
           source := a.sourceName.getD "Unknown" }

/-- Processing of a non-429 response in `fetch_news`: `raise_for_status` (the
raised error is swallowed by the `except` clauses, yielding `[]`), the API
status check, per-article cleanup, and truncation to `num` articles. -/
def processResponse (r : HttpResponse) (num : Nat) : List Article :=
  if 400 ≤ r.status_code then []
  else if r.body.status ≠ some "ok" then []
  else (((r.body.articles.getD []).filterMap cleanArticle).take num)

/-- `NewsFetcher.fetch_news` (src/news_fetcher.py): `g1` is the outcome of the
first `client.get`, `g2` of the retry issued only on HTTP 429.  Returns the
article list together with the number of GET calls issued. -/
def fetch_news (g1 g2 : GetResult) (num : Nat) : List Article × Nat :=
  match g1 with
  | .ok r1 =>
    if r1.status_code = 429 then
      (match g2 with
       | .ok r2 => processResponse r2 num
       | _ => [], 2)
    else (processResponse r1 num, 1)
  | _ => ([], 1)

/-! ## Serialized form of event payloads (`json.dumps`) -/

/-- A general JSON value, for the serialized event payloads. -/
inductive Jval where
  | jstr : String → Jval
  | jbool : Bool → Jval
  | jnum : Nat → Jval
  | jarr : List Jval → Jval
  | jobj : List (String × Jval) → Jval
deriving Repr

/-- String-level JSON escaping. -/
def escS (s : String) : String := String.mk (escList s.toList)

mutual

/-- Serialize a JSON value (the model of `json.dumps`). -/
def jencode : Jval → String
  | .jstr s => "\"" ++ escS s ++ "\""
  | .jbool b => cond b "true" "false"
  | .jnum n => toString n
  | .jarr l => "[" ++ jencodeArr l ++ "]"
  | .jobj l => String.singleton lbrace ++ jencodeObj l ++ String.singleton rbrace

/-- Serialize the elements of a JSON array. -/
def jencodeArr : List Jval → String
  | [] => ""
  | v :: vs => match vs with
    | [] => jencode v
    | _ :: _ => jencode v ++ "," ++ jencodeArr vs

/-- Serialize the members of a JSON object. -/
def jencodeObj : List (String × Jval) → String
  | [] => ""
  | p :: ps => match ps with
    | [] => "\"" ++ escS p.1 ++ "\":" ++ jencode p.2
    | _ :: _ => "\"" ++ escS p.1 ++ "\":" ++ jencode p.2 ++ "," ++ jencodeObj ps

end

/-- The JSON form of an article (the fetcher's normalized dictionary). -/
def Article.toJ (a : Article) : Jval :=
  .jobj [("title", .jstr a.title), ("description", .jstr a.description),
    ("content", .jstr a.content), ("url", .jstr a.url),
    ("publishedAt", .jstr a.publishedAt), ("source", .jstr a.source)]

/-- The JSON form of an analysis record; optional keys are present only when
set, mirroring the analyzer's dictionaries. -/
def AnalysisResult.toJ (r : AnalysisResult) : Jval :=
  .jobj ([("gist", .jstr r.gist), ("sentiment", .jstr r.sentiment)] ++
    (match r.tone with | some t => [("tone", Jval.jstr t)] | none => []) ++
    (match r.error with | some e => [("error", Jval.jstr e)] | none => []))

/-- The JSON form of a validation record. -/
def ValidationResult.toJ (v : ValidationResult) : Jval :=
  .jobj ([("is_valid", .jbool v.is_valid), ("notes", .jstr v.notes)] ++
    (match v.error with | some e => [("error", Jval.jstr e)] | none => []))

/-- The JSON form of a frontend article projection. -/
def FinalArticle.toJ (f : FinalArticle) : Jval :=
  .jobj [("id", .jnum f.id), ("title", .jstr f.title),
    ("sentiment", .jstr f.sentiment), ("validationPassed", .jbool f.validationPassed),
    ("validationNote", .jstr f.validationNote), ("summary", .jstr f.summary),
    ("url", .jstr f.url)]

/-- The payload serialized into the `data` key of each yielded event. -/
def eventData : Event → Jval
  | .log msg step => .jobj [("message", .jstr msg), ("step", .jstr step)]
  | .result arts => .jobj [("articles", .jarr (arts.map FinalArticle.toJ))]
  | .full_result fulls raw =>
    .jobj [("validated_results", .jarr (fulls.map (fun p =>
        Jval.jobj [("article", p.1.toJ), ("analysis", p.2.1.toJ),
          ("validation", p.2.2.toJ)]))),
      ("raw_articles", .jarr (raw.map Article.toJ))]
  | .error msg => .jobj [("message", .jstr msg)]
  | .close => .jobj [("message", .jstr "Stream closed")]

/-- The dictionary actually yielded by `run` for an event: the `event` key and
the `json.dumps`-serialized `data` key. -/
def eventDict (e : Event) : String × String := (e.kind, jencode (eventData e))

/-- A string is valid JSON when it is the serialization of some JSON value. -/
def ValidJson (s : String) : Prop := ∃ v : Jval, jencode v = s

/-! ## Auxiliary definitions used by the claim statements -/

/-- The three-backtick fence delimiter. -/
def fenceStr : String := String.mk [btick, btick, btick]

/-- A body wrapped in a fenced code block with the given language tag (an
empty tag gives the tagless fence variant). -/
def mkFenced (tag body : String) : String :=
  fenceStr ++ tag ++ "\n" ++ body ++ "\n" ++ fenceStr

/-- Boolean string-prefix test on the underlying character lists. -/
def strStarts (p s : String) : Bool := p.toList.isPrefixOf s.toList

/-- Is this one of the per-article ANALYZING progress events? -/
def isAnalyzeArticleEv : Event → Bool
  | .log msg step => step == "analyze" && strStarts "Analyzed article " msg
  | _ => false

/-- Is this one of the per-article VALIDATING progress events? -/
def isValidateArticleEv : Event → Bool
  | .log msg step => step == "validate" && strStarts "Validating article " msg
  | _ => false

/-- Is this a log event of the VALIDATING stage (step `validate`)? -/
def isValidateStepLog : Event → Bool
  | .log _ step => step == "validate"
  | _ => false

/-- The events emitted strictly after the last VALIDATING-stage log event
(the whole sequence when no such event exists). -/
def afterLastValidate (evs : List Event) : List Event :=
  (evs.reverse.takeWhile (fun e => !(isValidateStepLog e))).reverse

/-- The analysis pairs produced when every analyzer call returns `f`. -/
def pairsOf (f : Article → AnalysisResult) (arts : List Article) :
    List (Article × AnalysisResult) :=
  arts.map (fun a => (a, f a))

/-- The frontend projections accumulated by a fully successful Stage-2 loop
whose validator returns `g2`. -/
def finalsL (g2 : Article × AnalysisResult → ValidationResult) :
    List (Article × AnalysisResult) → Nat → List FinalArticle
  | [], _ => []
  | (a, ana) :: rest, idx =>
    projectArticle idx a ana (g2 (a, ana)) :: finalsL g2 rest (idx + 1)

/-- The full validated records accumulated by a fully successful Stage-2
loop whose validator returns `g2`. -/
def fullL (g2 : Article × AnalysisResult → ValidationResult)
    (pairs : List (Article × AnalysisResult)) :
    List (Article × AnalysisResult × ValidationResult) :=
  pairs.map (fun p => (p.1, p.2, g2 p))

/-- A concrete article for witnesses. -/
def demoArticle : Article :=
  { title := "T", description := "D", content := "C", url := "u",
    publishedAt := "p", source := "s" }

/-- A concrete analysis record for witnesses. -/
def demoAna : AnalysisResult :=
  { gist := "g", sentiment := "Positive", tone := some "t", error := none }

/-- A concrete validation record for witnesses. -/
def demoVal : ValidationResult :=
  { is_valid := true, notes := "ok", error := none }

/-- Concrete collaborators whose calls all succeed, for witnesses. -/
def demoCollab : Collab :=
  { fetch := .ok [demoArticle], analyze := fun _ => .ok demoAna,
    validate := fun _ _ => .ok demoVal }

/-- Concrete collaborators whose fetch returns the empty list. -/
def emptyFetchCollab : Collab :=
  { fetch := .ok [], analyze := fun _ => .ok demoAna,
    validate := fun _ _ => .ok demoVal }

/-- A concrete mapping holding the validation schema, for witnesses. -/
def demoMap : JsonMap := [("is_valid", Lit.bool true), ("notes", Lit.str "Valid")]

/-- Concrete collaborators whose analyzer and validator wrap the spec-modelled
degradation paths over a failing model call: they never raise. -/
def demoDegradedCollab : Collab :=
  { fetch := .ok [demoArticle]
    analyze := fun _ => .ok (runAnalyzer (Except.error "model down"))
    validate := fun _ _ => .ok (runValidator (Except.error "model down")) }

/-! ## List helper lemmas -/

theorem dropWhile_append_all {α : Type} (p : α → Bool) (xs ys : List α)
    (h : ∀ x ∈ xs, p x = true) :
    (xs ++ ys).dropWhile p = ys.dropWhile p := by
  induction xs with
  | nil => simp
  | cons a t ih =>
    have ha : p a = true := h a (by simp)
    simp [List.dropWhile_cons, ha, ih (fun x hx => h x (by simp [hx]))]

theorem dropWhile_cons_stop {α : Type} (p : α → Bool) (a : α) (l : List α)
    (h : p a = false) : (a :: l).dropWhile p = a :: l := by
  simp [List.dropWhile_cons, h]

theorem takeWhile_append_stop {α : Type} (p : α → Bool) (xs : List α) (y : α)
    (ys : List α) (hxs : ∀ x ∈ xs, p x = true) (hy : p y = false) :
    (xs ++ y :: ys).takeWhile p = xs := by
  induction xs with
  | nil => simp [List.takeWhile_cons, hy]
  | cons a t ih =>
    have ha : p a = true := hxs a (by simp)
    simp [List.takeWhile_cons, ha, ih (fun x hx => hxs x (by simp [hx]))]

theorem isPrefixOf_self_append (l t : List Char) : l.isPrefixOf (l ++ t) = true :=
  List.isPrefixOf_iff_prefix.mpr (List.prefix_append l t)

/-! ## Round-trip lemmas for the extractor's JSON codec -/

theorem parseStrAux_quote (cs : List Char) : parseStrAux ('"' :: cs) = some ([], cs) := by
  rw [parseStrAux.eq_def]; simp

theorem parseStrAux_escape (e : Char) (cs : List Char) (h : e = '"' ∨ e = '\\') :
    parseStrAux ('\\' :: e :: cs) = (parseStrAux cs).map (fun p => (e :: p.1, p.2)) := by
  rw [parseStrAux.eq_def]
  rcases h with h | h <;> simp [h]

theorem parseStrAux_other (c : Char) (cs : List Char) (h1 : c ≠ '"') (h2 : c ≠ '\\') :
    parseStrAux (c :: cs) = (parseStrAux cs).map (fun p => (c :: p.1, p.2)) := by
  rw [parseStrAux.eq_def]
  simp [h1, h2]

theorem parseStrAux_esc (l rest : List Char) :
    parseStrAux (escList l ++ '"' :: rest) = some (l, rest) := by
  induction l with
  | nil => simp [escList, parseStrAux_quote]
  | cons c cs ih =>
    by_cases h : c = '"' ∨ c = '\\'
    · have he : escChar c = ['\\', c] := by
        rcases h with h | h <;> simp [escChar, h]
      simp [escList, he, parseStrAux_escape c _ h, ih]
    · push_neg at h
      have he : escChar c = [c] := by simp [escChar, h.1, h.2]
      simp [escList, he, parseStrAux_other c _ h.1 h.2, ih]

theorem parseLit_enc (v : Lit) (rest : List Char) :
    parseLit (encLit v ++ rest) = some (v, rest) := by
  cases v with
  | str s =>
    show parseLit ('"' :: (escList s.toList ++ ['"']) ++ rest) = _
    have : ('"' :: (escList s.toList ++ ['"']) ++ rest)
        = '"' :: (escList s.toList ++ '"' :: rest) := by simp
    rw [this]
    simp [parseLit, parseStrAux_esc]
  | bool b => cases b <;> simp [encLit, parseLit]

theorem parseMembers_enc (m : JsonMap) : ∀ (fuel : Nat) (rest : List Char),
    m ≠ [] → m.length ≤ fuel → (∀ c, rest.head? = some c → c ≠ ',') →
    parseMembers fuel (encMembers m ++ rest) = some (m, rest) := by
  induction m with
  | nil => intro _ _ h; exact absurd rfl h
  | cons p m' ih =>
    intro fuel rest _ hlen hrest
    obtain ⟨f, rfl⟩ : ∃ f, fuel = f + 1 := by
      cases fuel with
      | zero => simp at hlen
      | succ f => exact ⟨f, rfl⟩
    cases m' with
    | nil =>
      have hshape : encMembers [p] ++ rest
          = '"' :: (escList p.1.toList ++ '"' :: ':' :: (encLit p.2 ++ rest)) := by
        simp [encMembers, encMember]
      rw [hshape]
      have hstr : parseStrAux (escList p.1.toList ++ '"' :: (':' :: (encLit p.2 ++ rest)))
          = some (p.1.toList, ':' :: (encLit p.2 ++ rest)) := parseStrAux_esc _ _
      simp only [parseMembers, if_pos rfl, hstr, if_pos (rfl : ':' = ':'),
        parseLit_enc p.2 rest]
      cases rest with
      | nil => rfl
      | cons e r4 =>
        have he : e ≠ ',' := hrest e rfl
        simp [he]
    | cons q r =>
      have hshape : encMembers (p :: q :: r) ++ rest
          = '"' :: (escList p.1.toList ++ '"' :: ':' ::
              (encLit p.2 ++ ',' :: (encMembers (q :: r) ++ rest))) := by
        simp [encMembers, encMember]
      rw [hshape]
      have hstr : parseStrAux (escList p.1.toList ++ '"' ::
            (':' :: (encLit p.2 ++ ',' :: (encMembers (q :: r) ++ rest))))
          = some (p.1.toList, ':' :: (encLit p.2 ++ ',' :: (encMembers (q :: r) ++ rest))) :=
        parseStrAux_esc _ _
      have hrec : parseMembers f (encMembers (q :: r) ++ rest) = some (q :: r, rest) := by
        apply ih f rest (by simp) _ hrest
        have := hlen
        simpa using Nat.le_of_succ_le_succ (by simpa using hlen)
      simp only [parseMembers, if_pos rfl, hstr, if_pos (rfl : ':' = ':'),
        parseLit_enc p.2 (',' :: (encMembers (q :: r) ++ rest)), if_pos (rfl : ',' = ','),
        hrec]
      simp

theorem encMember_head (p : String × Lit) : ∃ t, encMember p = '"' :: t := ⟨_, rfl⟩

theorem encMembers_head (m : JsonMap) (h : m ≠ []) : ∃ t, encMembers m = '"' :: t := by
  cases m with
  | nil => exact absurd rfl h
  | cons p m' =>
    cases m' with
    | nil => exact ⟨_, rfl⟩
    | cons q r => exact ⟨_, rfl⟩

theorem length_le_encMembers (m : JsonMap) : m.length ≤ (encMembers m).length := by
  induction m with
  | nil => simp [encMembers]
  | cons p m' ih =>
    cases m' with
    | nil => simp [encMembers, encMember]
    | cons q r =>
      have h1 : 1 ≤ (encMember p).length := by
        obtain ⟨t, ht⟩ := encMember_head p
        simp [ht]
      simp only [encMembers, List.length_append, List.length_cons]
      simp only [List.length_cons] at ih ⊢
      omega

theorem parseObjChars_enc (m : JsonMap) : parseObjChars (encObjChars m) = some m := by
  cases m with
  | nil =>
    show parseObjChars [lbrace, rbrace] = some []
    simp [parseObjChars]
  | cons p m' =>
    obtain ⟨t, ht⟩ := encMembers_head (p :: m') (by simp)
    have hq : ('"' : Char) ≠ rbrace := by decide
    have hlb : (lbrace : Char) = lbrace := rfl
    show parseObjChars (lbrace :: (encMembers (p :: m') ++ [rbrace])) = some (p :: m')
    have hmem : parseMembers (encMembers (p :: m') ++ [rbrace]).length
        (encMembers (p :: m') ++ [rbrace]) = some (p :: m', [rbrace]) := by
      apply parseMembers_enc (p :: m') _ [rbrace] (by simp)
      · have := length_le_encMembers (p :: m')
        simp only [List.length_append, List.length_singleton]
        omega
      · intro c hc
        simp at hc
        rw [← hc]
        decide
    rw [parseObjChars.eq_def]
    rw [ht]
    simp only [if_pos rfl]
    rw [← ht, hmem]
    have hrb : (rbrace = rbrace) = True := by simp
    simp [ht, hq]

/-! ## Trim, fence and brace-substring lemmas -/

theorem dropWhile_ne_nil_of_exists {α : Type} (p : α → Bool) (xs : List α)
    (h : ∃ c ∈ xs, p c = false) : xs.dropWhile p ≠ [] := by
  intro hnil
  obtain ⟨c, hc, hpc⟩ := h
  have := List.dropWhile_eq_nil_iff.mp hnil c hc
  rw [this] at hpc
  exact Bool.noConfusion hpc

theorem dropWhile_append_left {α : Type} (p : α → Bool) (xs ys : List α)
    (h : xs.dropWhile p ≠ []) : (xs ++ ys).dropWhile p = xs.dropWhile p ++ ys := by
  induction xs with
  | nil => exact absurd rfl h
  | cons a t ih =>
    by_cases hp : p a = true
    · simp only [List.dropWhile_cons, hp, if_true] at h ⊢
      simpa [hp] using ih h
    · have hp' : p a = false := by simpa using hp
      simp [List.dropWhile_cons, hp']

theorem trimChars_eq_self (cs : List Char)
    (h1 : ∀ c, cs.head? = some c → isWsChar c = false)
    (h2 : ∀ c, cs.getLast? = some c → isWsChar c = false) :
    trimChars cs = cs := by
  cases cs with
  | nil => rfl
  | cons a t =>
    have ha : isWsChar a = false := h1 a rfl
    unfold trimChars
    rw [dropWhile_cons_stop _ _ _ ha]
    rcases hrev : (a :: t).reverse with _ | ⟨d, u⟩
    · simp at hrev
    · have hd : isWsChar d = false := by
        apply h2
        rw [← List.head?_reverse, hrev]
        rfl
      rw [dropWhile_cons_stop _ _ _ hd, ← hrev]
      exact List.reverse_reverse _

theorem encObjChars_cons (m : JsonMap) :
    encObjChars m = (lbrace :: encMembers m) ++ [rbrace] := by
  simp [encObjChars]

theorem encObjChars_getLast (m : JsonMap) :
    (encObjChars m).getLast? = some rbrace := by
  rw [encObjChars_cons]
  exact List.getLast?_concat _

theorem trimChars_encObj (m : JsonMap) :
    trimChars (encObjChars m) = encObjChars m := by
  apply trimChars_eq_self
  · intro c hc
    simp only [encObjChars, List.head?_cons, Option.some.injEq] at hc
    rw [← hc]
    decide
  · intro c hc
    rw [encObjChars_getLast] at hc
    cases hc
    decide

theorem fenceOpen_head (a : Char) (cs : List Char) (h : a ≠ btick) :
    fenceOpen (a :: cs) = false := by
  match cs with
  | [] => rfl
  | [b] => rfl
  | b :: c :: r => simp [fenceOpen, h]

theorem stripFence_id (cs : List Char) (h : fenceOpen cs = false) :
    stripFence cs = cs := by
  simp [stripFence, h]

theorem fenceOpen_encObj (m : JsonMap) : fenceOpen (encObjChars m) = false := by
  rw [encObjChars]
  exact fenceOpen_head _ _ (by decide)

theorem extractChars_enc (m : JsonMap) (required : List String) :
    extractChars (encObjChars m) required = checkRequired m required := by
  simp only [extractChars]
  rw [trimChars_encObj, stripFence_id _ (fenceOpen_encObj m), parseObjChars_enc]

theorem encObj_reverse (m : JsonMap) :
    (encObjChars m).reverse = rbrace :: (lbrace :: encMembers m).reverse := by
  rw [encObjChars_cons, List.reverse_append]
  rfl

theorem trimChars_enc_nl (m : JsonMap) :
    trimChars (encObjChars m ++ ['\n']) = encObjChars m := by
  unfold trimChars
  have h1 : (encObjChars m ++ ['\n']).dropWhile isWsChar = encObjChars m ++ ['\n'] := by
    rw [encObjChars, List.cons_append]
    exact dropWhile_cons_stop _ _ _ (by decide)
  rw [h1, List.reverse_append]
  show (List.dropWhile isWsChar ('\n' :: (encObjChars m).reverse)).reverse = _
  rw [List.dropWhile_cons]
  simp only [show isWsChar '\n' = true from rfl, if_true]
  rw [encObj_reverse, dropWhile_cons_stop _ _ _ (by decide), ← encObj_reverse,
    List.reverse_reverse]

theorem extractChars_fenced (m : JsonMap) (tagL : List Char) (required : List String)
    (htag : ∀ c ∈ tagL, c ≠ '\n') :
    extractChars
      ([btick, btick, btick] ++ tagL ++
        '\n' :: (encObjChars m ++ '\n' :: [btick, btick, btick])) required
      = checkRequired m required := by
  set cs : List Char :=
    [btick, btick, btick] ++ tagL ++
      '\n' :: (encObjChars m ++ '\n' :: [btick, btick, btick]) with hcs
  have hshape : cs = btick :: btick :: btick ::
      (tagL ++ '\n' :: (encObjChars m ++ '\n' :: [btick, btick, btick])) := by
    simp [hcs]
  have hconcat : cs =
      (btick :: btick :: btick ::
        (tagL ++ '\n' :: (encObjChars m ++ ['\n', btick, btick]))) ++ [btick] := by
    simp [hcs]
  have htrim : trimChars cs = cs := by
    apply trimChars_eq_self
    · intro c hc
      rw [hshape] at hc
      simp only [List.head?_cons, Option.some.injEq] at hc
      rw [← hc]
      decide
    · intro c hc
      rw [hconcat, List.getLast?_concat] at hc
      cases hc
      decide
  have hfence1 : fenceOpen cs = true := by
    rw [hshape]
    simp [fenceOpen]
  have htail3 : cs =
      ([btick, btick, btick] ++ (tagL ++ '\n' :: (encObjChars m ++ ['\n']))) ++
        [btick, btick, btick] := by
    simp [hcs]
  have hfence2 : fenceOpen cs.reverse = true := by
    rw [htail3, List.reverse_append]
    show fenceOpen (btick :: btick :: btick :: _) = true
    simp [fenceOpen]
  have hdrop : cs.drop 3
      = tagL ++ '\n' :: (encObjChars m ++ '\n' :: [btick, btick, btick]) := by
    rw [hshape]
    rfl
  have hdropEnd : ((cs.drop 3).reverse.drop 3).reverse
      = tagL ++ '\n' :: (encObjChars m ++ ['\n']) := by
    have hX : cs.drop 3
        = (tagL ++ '\n' :: (encObjChars m ++ ['\n'])) ++ [btick, btick, btick] := by
      rw [hdrop]
      simp
    rw [hX, List.reverse_append]
    have h3 : (([btick, btick, btick] : List Char).reverse) = [btick, btick, btick] := rfl
    rw [h3]
    have h4 : (([btick, btick, btick] : List Char) ++
          (tagL ++ '\n' :: (encObjChars m ++ ['\n'])).reverse).drop 3
        = (tagL ++ '\n' :: (encObjChars m ++ ['\n'])).reverse := rfl
    rw [h4, List.reverse_reverse]
  have htagline : dropTagLine (tagL ++ '\n' :: (encObjChars m ++ ['\n']))
      = encObjChars m ++ ['\n'] := by
    unfold dropTagLine
    have hall : ∀ c ∈ tagL, (!(c = '\n') : Bool) = true := by
      intro c hc
      simp [htag c hc]
    rw [dropWhile_append_all _ _ _ hall]
    rw [dropWhile_cons_stop _ _ _ (by simp)]
  have hstrip : stripFence cs = encObjChars m := by
    rw [stripFence, hfence1, hfence2]
    simp only [Bool.and_self, if_true]
    rw [hdropEnd, htagline, trimChars_enc_nl]
  simp only [extractChars]
  rw [htrim, hstrip, parseObjChars_enc]

theorem parseObjChars_not_lbrace (a : Char) (cs : List Char) (h : a ≠ lbrace) :
    parseObjChars (a :: cs) = none := by
  simp [parseObjChars, h]

theorem extractChars_prose (m : JsonMap) (pre suf : List Char) (required : List String)
    (hpre1 : ∀ c ∈ pre, c ≠ lbrace)
    (hpre2 : ∀ c ∈ pre, c ≠ btick)
    (hpre3 : ∃ c ∈ pre, isWsChar c = false)
    (hsuf : ∀ c ∈ suf, c ≠ rbrace) :
    extractChars (pre ++ encObjChars m ++ suf) required = checkRequired m required := by
  have hpre' : pre.dropWhile isWsChar ≠ [] := dropWhile_ne_nil_of_exists _ _ hpre3
  set pre2 : List Char := pre.dropWhile isWsChar with hpre2def
  have hsubPre : ∀ c ∈ pre2, c ∈ pre := fun c hc =>
    (List.dropWhile_sublist _).subset hc
  set sufR : List Char := suf.reverse.dropWhile isWsChar with hsufRdef
  have hsubSufR : ∀ c ∈ sufR, c ∈ suf := fun c hc =>
    List.mem_reverse.mp ((List.dropWhile_sublist _).subset hc)
  have hltrim : (pre ++ encObjChars m ++ suf).dropWhile isWsChar
      = pre2 ++ (encObjChars m ++ suf) := by
    rw [List.append_assoc]
    exact dropWhile_append_left _ _ _ hpre'
  have hencrev : ∃ rr, (encObjChars m).reverse = rbrace :: rr :=
    ⟨_, encObj_reverse m⟩
  have hrtrim : (suf.reverse ++ ((encObjChars m).reverse ++ pre2.reverse)).dropWhile
        isWsChar
      = sufR ++ ((encObjChars m).reverse ++ pre2.reverse) := by
    by_cases hsr : sufR = []
    · rw [hsr, List.nil_append]
      have hall : ∀ c ∈ suf.reverse, isWsChar c = true :=
        List.dropWhile_eq_nil_iff.mp hsr
      rw [dropWhile_append_all _ _ _ hall]
      obtain ⟨rr, hrr⟩ := hencrev
      rw [hrr, List.cons_append]
      exact dropWhile_cons_stop _ _ _ (by decide)
    · exact dropWhile_append_left _ _ _ hsr
  have htrim : trimChars (pre ++ encObjChars m ++ suf)
      = pre2 ++ (encObjChars m ++ sufR.reverse) := by
    unfold trimChars
    rw [hltrim]
    have h5 : (pre2 ++ (encObjChars m ++ suf)).reverse
        = suf.reverse ++ ((encObjChars m).reverse ++ pre2.reverse) := by
      simp
    rw [h5, hrtrim]
    simp
  obtain ⟨a, pre3, hap⟩ := List.exists_cons_of_ne_nil hpre'
  have haPre : a ∈ pre := hsubPre a (by rw [hap]; simp)
  have hshape : pre2 ++ (encObjChars m ++ sufR.reverse)
      = a :: (pre3 ++ (encObjChars m ++ sufR.reverse)) := by
    rw [hap]
    rfl
  have hfence : fenceOpen (pre2 ++ (encObjChars m ++ sufR.reverse)) = false := by
    rw [hshape]
    exact fenceOpen_head _ _ (hpre2 a haPre)
  have hparse : parseObjChars (pre2 ++ (encObjChars m ++ sufR.reverse)) = none := by
    rw [hshape]
    exact parseObjChars_not_lbrace _ _ (hpre1 a haPre)
  have hbrace : braceSub (pre2 ++ (encObjChars m ++ sufR.reverse))
      = some (encObjChars m) := by
    have hall1 : ∀ c ∈ pre2, (!(c = lbrace) : Bool) = true := by
      intro c hc
      simp [hpre1 c (hsubPre c hc)]
    have hstop1 : (encObjChars m ++ sufR.reverse).dropWhile (fun c => !(c = lbrace))
        = encObjChars m ++ sufR.reverse := by
      rw [encObjChars, List.cons_append]
      exact dropWhile_cons_stop _ _ _ (by simp)
    have ht : (pre2 ++ (encObjChars m ++ sufR.reverse)).dropWhile
          (fun c => !(c = lbrace))
        = encObjChars m ++ sufR.reverse := by
      rw [dropWhile_append_all _ _ _ hall1, hstop1]
    have hrev : (encObjChars m ++ sufR.reverse).reverse
        = sufR ++ (encObjChars m).reverse := by
      simp
    have hall2 : ∀ c ∈ sufR, (!(c = rbrace) : Bool) = true := by
      intro c hc
      simp [hsuf c (hsubSufR c hc)]
    obtain ⟨rr, hrr⟩ := hencrev
    have hu : ((encObjChars m ++ sufR.reverse).reverse.dropWhile
          (fun c => !(c = rbrace))).reverse = encObjChars m := by
      rw [hrev, dropWhile_append_all _ _ _ hall2, hrr,
        dropWhile_cons_stop _ _ _ (by simp), ← hrr, List.reverse_reverse]
    simp only [braceSub, ht, hu]
    have hne : (encObjChars m).isEmpty = false := by
      rw [encObjChars]
      rfl
    simp [hne]
  simp only [extractChars]
  rw [htrim, stripFence_id _ hfence, hparse, hbrace]
  simp [parseObjChars_enc]

theorem checkRequired_ok (m : JsonMap) (required : List String)
    (h : ∀ f ∈ required, m.any (fun p => p.1 == f) = true) :
    checkRequired m required = .ok m := by
  have hm : requiredMissing m required = [] := by
    apply List.filter_eq_nil_iff.mpr
    intro f hf
    simp [h f hf]
  simp [checkRequired, hm]

theorem checkRequired_missing (m : JsonMap) (required : List String)
    (h : requiredMissing m required ≠ []) :
    checkRequired m required = .error (.schema (requiredMissing m required)) := by
  simp [checkRequired, h]

theorem toList_append (s t : String) : (s ++ t).toList = s.toList ++ t.toList :=
  String.data_append s t

theorem jsonEncode_toList (m : JsonMap) : (jsonEncode m).toList = encObjChars m := rfl

theorem mkFenced_toList (tag body : String) :
    (mkFenced tag body).toList
      = [btick, btick, btick] ++ tag.toList ++
          '\n' :: (body.toList ++ '\n' :: [btick, btick, btick]) := by
  have hn : ("\n" : String).toList = ['\n'] := rfl
  have hf : fenceStr.toList = [btick, btick, btick] := rfl
  have hfd : fenceStr.data = [btick, btick, btick] := rfl
  simp [mkFenced, toList_append, hn, hf, hfd]

/-- C7: extractor round-trip with wrapper tolerance.  For every mapping `m`
containing all required fields, `extract` recovers `m` unchanged from its
`jsonEncode` serialization, from the serialization wrapped in a fenced code
block (with any newline-free language tag, covering the tagged and tagless
variants), and from the serialization surrounded by leading/trailing prose,
where the leading prose contains no opening brace or backtick and at least one
non-whitespace character, and the trailing prose contains no closing brace, so
that `m` is the first-brace-to-last-brace object of the text. -/
theorem C7_extract_round_trip (m : JsonMap) (required : List String)
    (tag pre suf : String)
    (hreq : ∀ f ∈ required, m.any (fun p => p.1 == f) = true)
    (htag : ∀ c ∈ tag.toList, c ≠ '\n')
    (hpre1 : ∀ c ∈ pre.toList, c ≠ lbrace)
    (hpre2 : ∀ c ∈ pre.toList, c ≠ btick)
    (hpre3 : ∃ c ∈ pre.toList, isWsChar c = false)
    (hsuf : ∀ c ∈ suf.toList, c ≠ rbrace) :
    extract (jsonEncode m) required = .ok m ∧
    extract (mkFenced tag (jsonEncode m)) required = .ok m ∧
    extract (pre ++ jsonEncode m ++ suf) required = .ok m := by
  refine ⟨?_, ?_, ?_⟩
  · show extractChars (jsonEncode m).toList required = .ok m
    rw [jsonEncode_toList, extractChars_enc, checkRequired_ok m required hreq]
  · show extractChars (mkFenced tag (jsonEncode m)).toList required = .ok m
    rw [mkFenced_toList, jsonEncode_toList, extractChars_fenced m tag.toList required htag,
      checkRequired_ok m required hreq]
  · show extractChars (pre ++ jsonEncode m ++ suf).toList required = .ok m
    rw [toList_append, toList_append, jsonEncode_toList,
      extractChars_prose m pre.toList suf.toList required hpre1 hpre2 hpre3 hsuf,
      checkRequired_ok m required hreq]

/-- Witness for C7 at the validation schema, the `json` language tag, and the
prose wrappers from the spec. -/
theorem C7_witness :
    extract (jsonEncode demoMap) validationRequired = .ok demoMap ∧
    extract (mkFenced "json" (jsonEncode demoMap)) validationRequired = .ok demoMap ∧
    extract ("here you go: " ++ jsonEncode demoMap ++ " thanks") validationRequired
      = .ok demoMap :=
  C7_extract_round_trip demoMap validationRequired "json" "here you go: " " thanks"
    (by decide) (by decide) (by decide) (by decide) (by decide) (by decide)

/-- C8: for an input text parsing to a JSON object with at least one required
field absent, the extractor fails with a schema error naming exactly the
missing fields, and the validator stage converts this failure into the
degraded record (`is_valid` false, failure notes, and an error message naming
the missing fields) instead of returning the incomplete mapping. -/
theorem C8_missing_fields (m : JsonMap) (required : List String)
    (h : requiredMissing m required ≠ []) :
    extract (jsonEncode m) required = .error (.schema (requiredMissing m required)) ∧
    (requiredMissing m validationRequired ≠ [] →
      runValidator (.ok (jsonEncode m))
        = { is_valid := false, notes := "Validation failed due to error",
            error := some ("Missing required fields: " ++
              String.intercalate ", " (requiredMissing m validationRequired)) }) := by
  constructor
  · show extractChars (jsonEncode m).toList required = _
    rw [jsonEncode_toList, extractChars_enc, checkRequired_missing m required h]
  · intro hv
    have hx : extract (jsonEncode m) validationRequired
        = .error (.schema (requiredMissing m validationRequired)) := by
      show extractChars (jsonEncode m).toList validationRequired = _
      rw [jsonEncode_toList, extractChars_enc, checkRequired_missing m _ hv]
    simp only [runValidator, hx]
    rfl

/-- Witness for C8: the validation schema applied to a mapping missing the
`notes` field, as in `test_missing_required_fields`. -/
theorem C8_witness :
    extract (jsonEncode [("is_valid", Lit.bool true)]) validationRequired
      = .error (.schema (requiredMissing [("is_valid", Lit.bool true)]
          validationRequired)) ∧
    (requiredMissing [("is_valid", Lit.bool true)] validationRequired ≠ [] →
      runValidator (.ok (jsonEncode [("is_valid", Lit.bool true)]))
        = { is_valid := false, notes := "Validation failed due to error",
            error := some ("Missing required fields: " ++
              String.intercalate ", "
                (requiredMissing [("is_valid", Lit.bool true)] validationRequired)) }) :=
  C8_missing_fields [("is_valid", Lit.bool true)] validationRequired (by decide)

/-! ## Loop characterization lemmas -/

theorem analyzeLoop_ok (c : Collab) (f : Article → AnalysisResult) :
    ∀ (arts : List Article) (idx n : Nat),
    (∀ a ∈ arts, c.analyze a = .ok (f a)) →
    analyzeLoop c arts idx n
      = ((List.range arts.length).map (fun i => analyzeLogEv (idx + i) n),
         pairsOf f arts, none) := by
  intro arts
  induction arts with
  | nil => intro idx n _; simp [analyzeLoop, pairsOf]
  | cons a rest ih =>
    intro idx n h
    have ha := h a (List.mem_cons_self a rest)
    have hrec := ih (idx + 1) n (fun x hx => h x (List.mem_cons_of_mem a hx))
    have hmap : (List.range rest.length).map (fun i => analyzeLogEv (idx + 1 + i) n)
        = (List.range rest.length).map ((fun i => analyzeLogEv (idx + i) n) ∘ Nat.succ) := by
      apply List.map_congr_left
      intro i _
      show analyzeLogEv (idx + 1 + i) n = analyzeLogEv (idx + (i + 1)) n
      congr 1
      omega
    simp only [analyzeLoop, ha, hrec, pairsOf, List.map_cons, List.length_cons,
      List.range_succ_eq_map, List.map_map]
    rw [hmap]
    simp

theorem validateLoop_ok (c : Collab) (g : Article × AnalysisResult → ValidationResult) :
    ∀ (pairs : List (Article × AnalysisResult)) (idx n : Nat),
    (∀ p ∈ pairs, c.validate p.1 p.2 = .ok (g p)) →
    validateLoop c pairs idx n
      = ((List.range pairs.length).map (fun i => validateLogEv (idx + i) n),
         fullL g pairs, finalsL g pairs idx, none) := by
  intro pairs
  induction pairs with
  | nil => intro idx n _; simp [validateLoop, fullL, finalsL]
  | cons p rest ih =>
    intro idx n h
    have hp := h p (List.mem_cons_self p rest)
    have hrec := ih (idx + 1) n (fun x hx => h x (List.mem_cons_of_mem p hx))
    have hmap : (List.range rest.length).map (fun i => validateLogEv (idx + 1 + i) n)
        = (List.range rest.length).map ((fun i => validateLogEv (idx + i) n) ∘ Nat.succ) := by
      apply List.map_congr_left
      intro i _
      show validateLogEv (idx + 1 + i) n = validateLogEv (idx + (i + 1)) n
      congr 1
      omega
    obtain ⟨a, ana⟩ := p
    simp only [validateLoop, hp, hrec, fullL, finalsL, List.map_cons, List.length_cons,
      List.range_succ_eq_map, List.map_map]
    rw [hmap]
    simp

theorem run_success (c : Collab) (t : String) (cnt : Nat) (arts : List Article)
    (f : Article → AnalysisResult) (g : Article × AnalysisResult → ValidationResult)
    (hf : c.fetch = .ok arts) (hne : arts ≠ [])
    (hA : ∀ a ∈ arts, c.analyze a = .ok (f a))
    (hV : ∀ p ∈ pairsOf f arts, c.validate p.1 p.2 = .ok (g p)) :
    run c t cnt
      = [initEv t cnt, connectEv, retrievedEv arts.length, startAnalyzeEv]
        ++ (List.range arts.length).map (fun i => analyzeLogEv (1 + i) arts.length)
        ++ [analysisDoneEv, startValidateEv]
        ++ (List.range arts.length).map (fun i => validateLogEv (1 + i) arts.length)
        ++ [allValidatedEv, pipelineCompleteEv,
            Event.result (finalsL g (pairsOf f arts) 1),
            Event.full_result (fullL g (pairsOf f arts)) arts, Event.close] := by
  have hAl := analyzeLoop_ok c f arts 1 arts.length hA
  have hVl := validateLoop_ok c g (pairsOf f arts) 1 (pairsOf f arts).length hV
  have hplen : (pairsOf f arts).length = arts.length := by simp [pairsOf]
  have hempty : arts.isEmpty = false := by
    cases arts with
    | nil => exact absurd rfl hne
    | cons x xs => rfl
  simp only [run, hf, hempty, Bool.false_eq_true, if_false, hAl, hVl]
  rw [hplen]

theorem finalsL_length (g : Article × AnalysisResult → ValidationResult) :
    ∀ (pairs : List (Article × AnalysisResult)) (idx : Nat),
    (finalsL g pairs idx).length = pairs.length := by
  intro pairs
  induction pairs with
  | nil => intro idx; rfl
  | cons p rest ih =>
    intro idx
    obtain ⟨a, ana⟩ := p
    simp [finalsL, ih]

theorem afterLastValidate_append (X T4 : List Event)
    (hT : ∀ e ∈ T4, isValidateStepLog e = false) :
    afterLastValidate (X ++ allValidatedEv :: T4) = T4 := by
  unfold afterLastValidate
  rw [List.reverse_append, List.reverse_cons, List.append_assoc,
    List.singleton_append]
  rw [takeWhile_append_stop _ T4.reverse allValidatedEv X.reverse
    (fun e he => by simp [hT e (List.mem_reverse.mp he)]) (by rfl)]
  exact List.reverse_reverse _

/-! ## Claim C2 -/

/-- C2: when the fetch collaborator returns the empty list, `run` emits its
two initialization logs and then exactly one `error` event, which terminates
the sequence: the error is the last event, and no per-article analysis or
validation event, no `result` and no `close` is ever emitted. -/
theorem C2_empty_fetch (c : Collab) (t : String) (cnt : Nat)
    (hf : c.fetch = .ok []) :
    run c t cnt
      = [initEv t cnt, connectEv, Event.error "No articles found or API error."] ∧
    countKind "error" (run c t cnt) = 1 ∧
    countKind "result" (run c t cnt) = 0 ∧
    countKind "close" (run c t cnt) = 0 ∧
    (run c t cnt).getLast?
      = some (Event.error "No articles found or API error.") ∧
    (run c t cnt).filter isAnalyzeArticleEv = [] ∧
    (run c t cnt).filter isValidateArticleEv = [] := by
  have hrun : run c t cnt
      = [initEv t cnt, connectEv, Event.error "No articles found or API error."] := by
    simp [run, hf]
  refine ⟨hrun, ?_, ?_, ?_, ?_, ?_, ?_⟩ <;> rw [hrun] <;> rfl

/-- Witness for C2 at concrete collaborators with an empty fetch. -/
theorem C2_witness :
    run emptyFetchCollab "Technology" 3
      = [initEv "Technology" 3, connectEv,
          Event.error "No articles found or API error."] ∧
    countKind "error" (run emptyFetchCollab "Technology" 3) = 1 ∧
    countKind "result" (run emptyFetchCollab "Technology" 3) = 0 ∧
    countKind "close" (run emptyFetchCollab "Technology" 3) = 0 ∧
    (run emptyFetchCollab "Technology" 3).getLast?
      = some (Event.error "No articles found or API error.") ∧
    (run emptyFetchCollab "Technology" 3).filter isAnalyzeArticleEv = [] ∧
    (run emptyFetchCollab "Technology" 3).filter isValidateArticleEv = [] :=
  C2_empty_fetch emptyFetchCollab "Technology" 3 rfl

/-! ## Claim C3 -/

/-- C3: for every non-empty fetched list, when every per-article collaborator
call returns (raising no exception), the run emits exactly one `result` event
and its articles array has exactly one entry per fetched article. -/
theorem C3_result_count (c : Collab) (t : String) (cnt : Nat) (arts : List Article)
    (f : Article → AnalysisResult) (g : Article × AnalysisResult → ValidationResult)
    (hf : c.fetch = .ok arts) (hne : arts ≠ [])
    (hA : ∀ a ∈ arts, c.analyze a = .ok (f a))
    (hV : ∀ p ∈ pairsOf f arts, c.validate p.1 p.2 = .ok (g p)) :
    (resultLists (run c t cnt)).map List.length = [arts.length] := by
  rw [run_success c t cnt arts f g hf hne hA hV]
  simp only [resultLists, List.filterMap_append, List.filterMap_cons]
  have h1 : ∀ (k n : Nat),
      List.filterMap (fun e => match e with | .result l => some l | _ => none)
        ((List.range k).map (fun i => analyzeLogEv (1 + i) n)) = [] := by
    intro k n
    rw [List.filterMap_map]
    apply List.filterMap_eq_nil_iff.mpr
    intro i _
    rfl
  have h2 : ∀ (k n : Nat),
      List.filterMap (fun e => match e with | .result l => some l | _ => none)
        ((List.range k).map (fun i => validateLogEv (1 + i) n)) = [] := by
    intro k n
    rw [List.filterMap_map]
    apply List.filterMap_eq_nil_iff.mpr
    intro i _
    rfl
  rw [h1, h2]
  simp [initEv, connectEv, retrievedEv, startAnalyzeEv, analysisDoneEv,
    startValidateEv, allValidatedEv, pipelineCompleteEv, finalsL_length, pairsOf]

/-- Witness for C3 at concrete fully-successful collaborators with one
fetched article. -/
theorem C3_witness :
    (resultLists (run demoCollab "Technology" 1)).map List.length
      = [([demoArticle] : List Article).length] :=
  C3_result_count demoCollab "Technology" 1 [demoArticle]
    (fun _ => demoAna) (fun _ => demoVal) rfl (by simp)
    (fun _ _ => rfl) (fun _ _ => rfl)

/-! ## Claim C1 -/

/-- C1 counterexample: at concrete fully-successful collaborators, the events
emitted after the last VALIDATING-stage event are four, not three: a
`full_result` event sits between the `result` and `close` events, refuting
"exactly three further events ... log, result, close". -/
theorem C1_counterexample :
    (afterLastValidate (run demoCollab "Technology" 1)).map Event.kind
        = ["log", "result", "full_result", "close"] ∧
    ¬ (afterLastValidate (run demoCollab "Technology" 1)).map Event.kind
        = ["log", "result", "close"] := by
  exact ⟨rfl, by decide⟩

/-- C1 (amended): for every run reaching the FINALIZING stage (non-empty
fetch, no exception), after the last VALIDATING event `run` emits exactly
four further events in order: the "Pipeline complete - results ready" log,
the `result` event whose payload projects every article as
(id, title, sentiment, validationPassed, validationNote, summary, url), a
`full_result` event carrying the unprojected records and raw articles, and a
`close` event — nothing else in between. -/
theorem C1_finalizing_amended (c : Collab) (t : String) (cnt : Nat)
    (arts : List Article) (f : Article → AnalysisResult)
    (g : Article × AnalysisResult → ValidationResult)
    (hf : c.fetch = .ok arts) (hne : arts ≠ [])
    (hA : ∀ a ∈ arts, c.analyze a = .ok (f a))
    (hV : ∀ p ∈ pairsOf f arts, c.validate p.1 p.2 = .ok (g p)) :
    afterLastValidate (run c t cnt)
      = [pipelineCompleteEv,
         Event.result (finalsL g (pairsOf f arts) 1),
         Event.full_result (fullL g (pairsOf f arts)) arts,
         Event.close] := by
  rw [run_success c t cnt arts f g hf hne hA hV]
  exact afterLastValidate_append _ _ (by intro e he; fin_cases he <;> rfl)

/-- Witness for C1's amended statement at concrete collaborators. -/
theorem C1_witness :
    afterLastValidate (run demoCollab "Technology" 1)
      = [pipelineCompleteEv,
         Event.result (finalsL (fun _ => demoVal)
            (pairsOf (fun _ => demoAna) [demoArticle]) 1),
         Event.full_result (fullL (fun _ => demoVal)
            (pairsOf (fun _ => demoAna) [demoArticle])) [demoArticle],
         Event.close] :=
  C1_finalizing_amended demoCollab "Technology" 1 [demoArticle]
    (fun _ => demoAna) (fun _ => demoVal) rfl (by simp)
    (fun _ _ => rfl) (fun _ _ => rfl)

theorem resultLists_run_success (c : Collab) (t : String) (cnt : Nat)
    (arts : List Article) (f : Article → AnalysisResult)
    (g : Article × AnalysisResult → ValidationResult)
    (hf : c.fetch = .ok arts) (hne : arts ≠ [])
    (hA : ∀ a ∈ arts, c.analyze a = .ok (f a))
    (hV : ∀ p ∈ pairsOf f arts, c.validate p.1 p.2 = .ok (g p)) :
    resultLists (run c t cnt) = [finalsL g (pairsOf f arts) 1] := by
  rw [run_success c t cnt arts f g hf hne hA hV]
  simp only [resultLists, List.filterMap_append, List.filterMap_cons]
  have h1 : ∀ (k n : Nat),
      List.filterMap (fun e => match e with | .result l => some l | _ => none)
        ((List.range k).map (fun i => analyzeLogEv (1 + i) n)) = [] := by
    intro k n
    rw [List.filterMap_map]
    apply List.filterMap_eq_nil_iff.mpr
    intro i _
    rfl
  have h2 : ∀ (k n : Nat),
      List.filterMap (fun e => match e with | .result l => some l | _ => none)
        ((List.range k).map (fun i => validateLogEv (1 + i) n)) = [] := by
    intro k n
    rw [List.filterMap_map]
    apply List.filterMap_eq_nil_iff.mpr
    intro i _
    rfl
  rw [h1, h2]
  simp [initEv, connectEv, retrievedEv, startAnalyzeEv, analysisDoneEv,
    startValidateEv, allValidatedEv, pipelineCompleteEv]

theorem run_success_getLast (c : Collab) (t : String) (cnt : Nat)
    (arts : List Article) (f : Article → AnalysisResult)
    (g : Article × AnalysisResult → ValidationResult)
    (hf : c.fetch = .ok arts) (hne : arts ≠ [])
    (hA : ∀ a ∈ arts, c.analyze a = .ok (f a))
    (hV : ∀ p ∈ pairsOf f arts, c.validate p.1 p.2 = .ok (g p)) :
    (run c t cnt).getLast? = some Event.close := by
  rw [run_success c t cnt arts f g hf hne hA hV, List.getLast?_append]
  rfl

/-! ## Claim C4 -/

/-- C4: a per-article failure never aborts the run.  A failing model call or
failing extraction makes the analyzer return the degraded record
(gist "Unable to analyze article", sentiment "neutral", error message) and
the validator return its degraded record (is_valid false, failure notes,
error message); and a pipeline whose analyzer and validator always return
such records (never raising) still completes: it ends with `close` and its
single result event carries one entry per fetched article. -/
theorem C4_degraded_continuation
    (msgA msgV text1 text2 : String) (e1 e2 : ExtractErr)
    (hx1 : extract text1 analysisRequired = .error e1)
    (hx2 : extract text2 validationRequired = .error e2)
    (c : Collab) (t : String) (cnt : Nat) (arts : List Article)
    (mA : Article → Except String String)
    (mV : Article → AnalysisResult → Except String String)
    (hCA : ∀ a, c.analyze a = .ok (runAnalyzer (mA a)))
    (hCV : ∀ a ana, c.validate a ana = .ok (runValidator (mV a ana)))
    (hf : c.fetch = .ok arts) (hne : arts ≠ []) :
    runAnalyzer (.error msgA)
      = { gist := "Unable to analyze article", sentiment := "neutral",
          tone := none, error := some msgA } ∧
    runAnalyzer (.ok text1)
      = { gist := "Unable to analyze article", sentiment := "neutral",
          tone := none, error := some (errText e1) } ∧
    runValidator (.error msgV)
      = { is_valid := false, notes := "Validation failed due to error",
          error := some msgV } ∧
    runValidator (.ok text2)
      = { is_valid := false, notes := "Validation failed due to error",
          error := some (errText e2) } ∧
    (run c t cnt).getLast? = some Event.close ∧
    (resultLists (run c t cnt)).map List.length = [arts.length] := by
  refine ⟨rfl, ?_, rfl, ?_, ?_, ?_⟩
  · simp only [runAnalyzer, hx1]
    rfl
  · simp only [runValidator, hx2]
    rfl
  · exact run_success_getLast c t cnt arts
      (fun a => runAnalyzer (mA a)) (fun p => runValidator (mV p.1 p.2))
      hf hne (fun a _ => hCA a) (fun p _ => hCV p.1 p.2)
  · rw [resultLists_run_success c t cnt arts
      (fun a => runAnalyzer (mA a)) (fun p => runValidator (mV p.1 p.2))
      hf hne (fun a _ => hCA a) (fun p _ => hCV p.1 p.2)]
    simp [finalsL_length, pairsOf]

/-- Witness for C4 at a parse-failing analyzer text, a schema-failing
validator text, and collaborators built over failing model calls. -/
theorem C4_witness :
    runAnalyzer (.error "boom")
      = { gist := "Unable to analyze article", sentiment := "neutral",
          tone := none, error := some "boom" } ∧
    runAnalyzer (.ok "This is not JSON")
      = { gist := "Unable to analyze article", sentiment := "neutral",
          tone := none, error := some (errText ExtractErr.parse) } ∧
    runValidator (.error "boom2")
      = { is_valid := false, notes := "Validation failed due to error",
          error := some "boom2" } ∧
    runValidator (.ok (jsonEncode [("is_valid", Lit.bool false)]))
      = { is_valid := false, notes := "Validation failed due to error",
          error := some (errText (ExtractErr.schema ["notes"])) } ∧
    (run demoDegradedCollab "Technology" 1).getLast? = some Event.close ∧
    (resultLists (run demoDegradedCollab "Technology" 1)).map List.length
      = [([demoArticle] : List Article).length] :=
  C4_degraded_continuation "boom" "boom2" "This is not JSON"
    (jsonEncode [("is_valid", Lit.bool false)]) ExtractErr.parse
    (ExtractErr.schema ["notes"]) (by decide) (by decide)
    demoDegradedCollab "Technology" 1 [demoArticle]
    (fun _ => Except.error "model down") (fun _ _ => Except.error "model down")
    (fun _ => rfl) (fun _ _ => rfl) rfl (by simp)

/-! ## Event-shape lemmas for arbitrary (also failing) runs -/

theorem range_succ_map_shift {α : Type} (h : Nat → α) (idx k : Nat) :
    (List.range (k + 1)).map (fun i => h (idx + i))
      = h idx :: (List.range k).map (fun i => h (idx + 1 + i)) := by
  simp only [List.range_succ_eq_map, List.map_cons, List.map_map, Nat.add_zero]
  congr 1
  apply List.map_congr_left
  intro i _
  show h (idx + (i + 1)) = h (idx + 1 + i)
  congr 1
  omega

theorem analyzeLoop_events (c : Collab) :
    ∀ (arts : List Article) (idx n : Nat),
    ∃ k, k ≤ arts.length ∧
      (analyzeLoop c arts idx n).1
        = (List.range k).map (fun i => analyzeLogEv (idx + i) n) := by
  intro arts
  induction arts with
  | nil => intro idx n; exact ⟨0, Nat.le_refl 0, rfl⟩
  | cons a rest ih =>
    intro idx n
    cases hc : c.analyze a with
    | error msg =>
      refine ⟨1, by simp, ?_⟩
      have h1 : (List.range 1).map (fun i => analyzeLogEv (idx + i) n)
          = [analyzeLogEv idx n] := by
        have hr : List.range 1 = [0] := rfl
        rw [hr, List.map_cons, List.map_nil, Nat.add_zero]
      rw [h1]
      simp [analyzeLoop, hc]
    | ok ana =>
      obtain ⟨k, hk, hevs⟩ := ih (idx + 1) n
      rcases hrec : analyzeLoop c rest (idx + 1) n with ⟨evs, ps, err⟩
      rw [hrec] at hevs
      refine ⟨k + 1, by simpa using Nat.succ_le_succ hk, ?_⟩
      simp only [analyzeLoop, hc, hrec]
      rw [range_succ_map_shift (fun i => analyzeLogEv i n) idx k]
      simpa using hevs

theorem validateLoop_events (c : Collab) :
    ∀ (pairs : List (Article × AnalysisResult)) (idx n : Nat),
    ∃ k, k ≤ pairs.length ∧
      (validateLoop c pairs idx n).1
        = (List.range k).map (fun i => validateLogEv (idx + i) n) := by
  intro pairs
  induction pairs with
  | nil => intro idx n; exact ⟨0, Nat.le_refl 0, rfl⟩
  | cons p rest ih =>
    intro idx n
    obtain ⟨a, ana⟩ := p
    cases hc : c.validate a ana with
    | error msg =>
      refine ⟨1, by simp, ?_⟩
      have h1 : (List.range 1).map (fun i => validateLogEv (idx + i) n)
          = [validateLogEv idx n] := by
        have hr : List.range 1 = [0] := rfl
        rw [hr, List.map_cons, List.map_nil, Nat.add_zero]
      rw [h1]
      simp [validateLoop, hc]
    | ok v =>
      obtain ⟨k, hk, hevs⟩ := ih (idx + 1) n
      rcases hrec : validateLoop c rest (idx + 1) n with ⟨evs, fs, fins, err⟩
      rw [hrec] at hevs
      refine ⟨k + 1, by simpa using Nat.succ_le_succ hk, ?_⟩
      simp only [validateLoop, hc, hrec]
      rw [range_succ_map_shift (fun i => validateLogEv i n) idx k]
      simpa using hevs

theorem countKind_append (s : String) (l1 l2 : List Event) :
    countKind s (l1 ++ l2) = countKind s l1 + countKind s l2 := by
  simp [countKind, List.filter_append]

theorem countKind_eq_zero (s : String) (evs : List Event)
    (h : ∀ e ∈ evs, Event.kind e ≠ s) : countKind s evs = 0 := by
  unfold countKind
  rw [List.filter_eq_nil_iff.mpr]
  · rfl
  · intro e he
    simp [h e he]

theorem countKind_analyzeLogs (s : String) (hs : s ≠ "log") (k idx n : Nat) :
    countKind s ((List.range k).map (fun i => analyzeLogEv (idx + i) n)) = 0 := by
  apply countKind_eq_zero
  intro e he
  obtain ⟨i, _, hi⟩ := List.mem_map.mp he
  rw [← hi]
  intro hcon
  apply hs
  rw [← hcon]
  rfl

theorem countKind_validateLogs (s : String) (hs : s ≠ "log") (k idx n : Nat) :
    countKind s ((List.range k).map (fun i => validateLogEv (idx + i) n)) = 0 := by
  apply countKind_eq_zero
  intro e he
  obtain ⟨i, _, hi⟩ := List.mem_map.mp he
  rw [← hi]
  intro hcon
  apply hs
  rw [← hcon]
  rfl

/-! ## Claim C6 -/

/-- C6: every run ends either with a complete `result` event followed (via the
`full_result` event) by a terminal `close` and no `error` anywhere, or with a
single terminal `error` event preceded by no other `error`, no `result` and no
`close` — an `error` is always the last event of the sequence. -/
theorem C6_terminal_dichotomy (c : Collab) (t : String) (cnt : Nat) :
    (∃ pre fins fulls raw,
        run c t cnt
          = pre ++ [Event.result fins, Event.full_result fulls raw, Event.close] ∧
        countKind "error" (run c t cnt) = 0) ∨
    (∃ pre msg,
        run c t cnt = pre ++ [Event.error msg] ∧
        countKind "error" pre = 0 ∧ countKind "result" pre = 0 ∧
        countKind "close" pre = 0) := by
  cases hf : c.fetch with
  | error msg =>
    right
    refine ⟨[initEv t cnt, connectEv], internalErrMsg msg, ?_, rfl, rfl, rfl⟩
    simp [run, hf]
  | ok articles =>
    cases articles with
    | nil =>
      right
      refine ⟨[initEv t cnt, connectEv], "No articles found or API error.",
        ?_, rfl, rfl, rfl⟩
      simp [run, hf]
    | cons a rest =>
      have hF : (((a :: rest).isEmpty) = true) = False := by simp
      rcases hal : analyzeLoop c (a :: rest) 1 (a :: rest).length with ⟨aEvs, pairs, aErr⟩
      obtain ⟨k1, hk1, haevs0⟩ := analyzeLoop_events c (a :: rest) 1 (a :: rest).length
      rw [hal] at haevs0
      have haevs : aEvs
          = (List.range k1).map (fun i => analyzeLogEv (1 + i) (a :: rest).length) :=
        haevs0
      have haCount : ∀ s : String, s ≠ "log" → countKind s aEvs = 0 := by
        intro s hs
        rw [haevs]
        exact countKind_analyzeLogs s hs k1 1 (a :: rest).length
      cases aErr with
      | some msg =>
        right
        have hrun : run c t cnt
            = ([initEv t cnt, connectEv, retrievedEv (a :: rest).length,
                startAnalyzeEv] ++ aEvs) ++ [Event.error (internalErrMsg msg)] := by
          simp only [run, hf, hF, if_false, hal]
        refine ⟨_, internalErrMsg msg, hrun, ?_, ?_, ?_⟩
        · rw [countKind_append, haCount "error" (by decide)]
          rfl
        · rw [countKind_append, haCount "result" (by decide)]
          rfl
        · rw [countKind_append, haCount "close" (by decide)]
          rfl
      | none =>
        rcases hvl : validateLoop c pairs 1 pairs.length with ⟨vEvs, fulls, finals, vErr⟩
        obtain ⟨k2, hk2, hvevs0⟩ := validateLoop_events c pairs 1 pairs.length
        rw [hvl] at hvevs0
        have hvevs : vEvs
            = (List.range k2).map (fun i => validateLogEv (1 + i) pairs.length) :=
          hvevs0
        have hvCount : ∀ s : String, s ≠ "log" → countKind s vEvs = 0 := by
          intro s hs
          rw [hvevs]
          exact countKind_validateLogs s hs k2 1 pairs.length
        cases vErr with
        | some msg =>
          right
          have hrun : run c t cnt
              = ((([initEv t cnt, connectEv, retrievedEv (a :: rest).length,
                  startAnalyzeEv] ++ aEvs) ++ [analysisDoneEv, startValidateEv])
                  ++ vEvs) ++ [Event.error (internalErrMsg msg)] := by
            simp only [run, hf, hF, if_false, hal, hvl]
          refine ⟨_, internalErrMsg msg, hrun, ?_, ?_, ?_⟩
          · rw [countKind_append, countKind_append, countKind_append,
              haCount "error" (by decide), hvCount "error" (by decide)]
            rfl
          · rw [countKind_append, countKind_append, countKind_append,
              haCount "result" (by decide), hvCount "result" (by decide)]
            rfl
          · rw [countKind_append, countKind_append, countKind_append,
              haCount "close" (by decide), hvCount "close" (by decide)]
            rfl
        | none =>
          left
          have hrun : run c t cnt
              = ((((([initEv t cnt, connectEv, retrievedEv (a :: rest).length,
                  startAnalyzeEv] ++ aEvs) ++ [analysisDoneEv, startValidateEv])
                  ++ vEvs) ++ [allValidatedEv, pipelineCompleteEv]))
                ++ [Event.result finals, Event.full_result fulls (a :: rest),
                    Event.close] := by
            simp only [run, hf, hF, if_false, hal, hvl]
            simp [List.append_assoc]
          refine ⟨_, finals, fulls, a :: rest, hrun, ?_⟩
          rw [hrun]
          rw [countKind_append, countKind_append, countKind_append,
            countKind_append, countKind_append,
            haCount "error" (by decide), hvCount "error" (by decide)]
          rfl

/-! ## Per-article event recognizers -/

theorem strStarts_of_head (p s : String) (h : ∃ r, s.toList = p.toList ++ r) :
    strStarts p s = true := by
  obtain ⟨r, hr⟩ := h
  unfold strStarts
  rw [hr]
  exact isPrefixOf_self_append _ _

theorem isAnalyzeArticleEv_log (i n : Nat) :
    isAnalyzeArticleEv (analyzeLogEv i n) = true := by
  have h : strStarts "Analyzed article "
      ("Analyzed article " ++ toString i ++ "/" ++ toString n ++ ": Analyzing...")
      = true := by
    apply strStarts_of_head
    exact ⟨(toString i ++ "/" ++ toString n ++ ": Analyzing...").toList,
      by simp [toList_append, List.append_assoc]⟩
  show ("analyze" == "analyze" && strStarts "Analyzed article "
    ("Analyzed article " ++ toString i ++ "/" ++ toString n ++ ": Analyzing...")) = true
  rw [h]
  rfl

theorem isValidateArticleEv_log (i n : Nat) :
    isValidateArticleEv (validateLogEv i n) = true := by
  have h : strStarts "Validating article "
      ("Validating article " ++ toString i ++ "/" ++ toString n ++ "...") = true := by
    apply strStarts_of_head
    exact ⟨(toString i ++ "/" ++ toString n ++ "...").toList,
      by simp [toList_append, List.append_assoc]⟩
  show ("validate" == "validate" && strStarts "Validating article "
    ("Validating article " ++ toString i ++ "/" ++ toString n ++ "...")) = true
  rw [h]
  rfl

theorem validate_false_analyzeLogs (k idx n : Nat) :
    ∀ e ∈ (List.range k).map (fun i => analyzeLogEv (idx + i) n),
      isValidateArticleEv e = false := by
  intro e he
  obtain ⟨i, _, hi⟩ := List.mem_map.mp he
  rw [← hi]
  rfl

theorem analyze_false_validateLogs (k idx n : Nat) :
    ∀ e ∈ (List.range k).map (fun i => validateLogEv (idx + i) n),
      isAnalyzeArticleEv e = false := by
  intro e he
  obtain ⟨i, _, hi⟩ := List.mem_map.mp he
  rw [← hi]
  rfl

theorem filter_analyze_self (k idx n : Nat) :
    ((List.range k).map (fun i => analyzeLogEv (idx + i) n)).filter isAnalyzeArticleEv
      = (List.range k).map (fun i => analyzeLogEv (idx + i) n) := by
  apply List.filter_eq_self.mpr
  intro e he
  obtain ⟨i, _, hi⟩ := List.mem_map.mp he
  rw [← hi]
  exact isAnalyzeArticleEv_log _ _

theorem filter_validate_self (k idx n : Nat) :
    ((List.range k).map (fun i => validateLogEv (idx + i) n)).filter isValidateArticleEv
      = (List.range k).map (fun i => validateLogEv (idx + i) n) := by
  apply List.filter_eq_self.mpr
  intro e he
  obtain ⟨i, _, hi⟩ := List.mem_map.mp he
  rw [← hi]
  exact isValidateArticleEv_log _ _

theorem filter_validate_on_analyzeLogs (k idx n : Nat) :
    ((List.range k).map (fun i => analyzeLogEv (idx + i) n)).filter isValidateArticleEv
      = [] := by
  apply List.filter_eq_nil_iff.mpr
  intro e he
  simp [validate_false_analyzeLogs k idx n e he]

theorem filter_analyze_on_validateLogs (k idx n : Nat) :
    ((List.range k).map (fun i => validateLogEv (idx + i) n)).filter isAnalyzeArticleEv
      = [] := by
  apply List.filter_eq_nil_iff.mpr
  intro e he
  simp [analyze_false_validateLogs k idx n e he]

/-! ## Claim C5 -/

/-- C5: every run is stage-ordered.  The event sequence splits into a prefix
containing no per-article VALIDATING event and a suffix containing no
per-article ANALYZING event (all ANALYZING events precede all VALIDATING
events), and within each stage the per-article events are exactly the events
for article indices 1, 2, … in strict input order. -/
theorem C5_stage_order (c : Collab) (t : String) (cnt : Nat) :
    (∃ xs ys, run c t cnt = xs ++ ys ∧
        (∀ e ∈ xs, isValidateArticleEv e = false) ∧
        (∀ e ∈ ys, isAnalyzeArticleEv e = false)) ∧
    (∃ n k, (run c t cnt).filter isAnalyzeArticleEv
        = (List.range k).map (fun i => analyzeLogEv (1 + i) n)) ∧
    (∃ m k, (run c t cnt).filter isValidateArticleEv
        = (List.range k).map (fun i => validateLogEv (1 + i) m)) := by
  cases hf : c.fetch with
  | error msg =>
    have hrun : run c t cnt
        = [initEv t cnt, connectEv, Event.error (internalErrMsg msg)] := by
      simp [run, hf]
    refine ⟨⟨run c t cnt, [], by simp, ?_, by simp⟩, ⟨0, 0, ?_⟩, ⟨0, 0, ?_⟩⟩
    · rw [hrun]
      intro e he
      fin_cases he <;> rfl
    · rw [hrun]
      rfl
    · rw [hrun]
      rfl
  | ok articles =>
    cases articles with
    | nil =>
      have hrun : run c t cnt
          = [initEv t cnt, connectEv, Event.error "No articles found or API error."] := by
        simp [run, hf]
      refine ⟨⟨run c t cnt, [], by simp, ?_, by simp⟩, ⟨0, 0, ?_⟩, ⟨0, 0, ?_⟩⟩
      · rw [hrun]
        intro e he
        fin_cases he <;> rfl
      · rw [hrun]
        rfl
      · rw [hrun]
        rfl
    | cons a rest =>
      have hF : (((a :: rest).isEmpty) = true) = False := by simp
      rcases hal : analyzeLoop c (a :: rest) 1 (a :: rest).length with ⟨aEvs, pairs, aErr⟩
      obtain ⟨k1, hk1, haevs0⟩ := analyzeLoop_events c (a :: rest) 1 (a :: rest).length
      rw [hal] at haevs0
      have haevs : aEvs
          = (List.range k1).map (fun i => analyzeLogEv (1 + i) (a :: rest).length) :=
        haevs0
      cases aErr with
      | some msg =>
        have hrun : run c t cnt
            = ([initEv t cnt, connectEv, retrievedEv (a :: rest).length,
                startAnalyzeEv] ++ aEvs) ++ [Event.error (internalErrMsg msg)] := by
          simp only [run, hf, hF, if_false, hal]
        refine ⟨⟨run c t cnt, [], by simp, ?_, by simp⟩,
          ⟨(a :: rest).length, k1, ?_⟩, ⟨0, 0, ?_⟩⟩
        · rw [hrun]
          rw [List.forall_mem_append, List.forall_mem_append]
          refine ⟨⟨?_, ?_⟩, ?_⟩
          · intro e he
            fin_cases he <;> rfl
          · rw [haevs]
            exact validate_false_analyzeLogs k1 1 (a :: rest).length
          · intro e he
            fin_cases he <;> rfl
        · rw [hrun, List.filter_append, List.filter_append, haevs,
            filter_analyze_self]
          have h1 : List.filter isAnalyzeArticleEv [initEv t cnt, connectEv,
              retrievedEv (a :: rest).length, startAnalyzeEv] = [] := rfl
          have h2 : List.filter isAnalyzeArticleEv
              [Event.error (internalErrMsg msg)] = [] := rfl
          rw [h1, h2]
          simp
        · rw [hrun, List.filter_append, List.filter_append, haevs,
            filter_validate_on_analyzeLogs]
          have h1 : List.filter isValidateArticleEv [initEv t cnt, connectEv,
              retrievedEv (a :: rest).length, startAnalyzeEv] = [] := rfl
          have h2 : List.filter isValidateArticleEv
              [Event.error (internalErrMsg msg)] = [] := rfl
          rw [h1, h2]
          rfl
      | none =>
        rcases hvl : validateLoop c pairs 1 pairs.length with ⟨vEvs, fulls, finals, vErr⟩
        obtain ⟨k2, hk2, hvevs0⟩ := validateLoop_events c pairs 1 pairs.length
        rw [hvl] at hvevs0
        have hvevs : vEvs
            = (List.range k2).map (fun i => validateLogEv (1 + i) pairs.length) :=
          hvevs0
        cases vErr with
        | some msg =>
          have hrun : run c t cnt
              = ((([initEv t cnt, connectEv, retrievedEv (a :: rest).length,
                  startAnalyzeEv] ++ aEvs) ++ [analysisDoneEv, startValidateEv])
                  ++ vEvs) ++ [Event.error (internalErrMsg msg)] := by
            simp only [run, hf, hF, if_false, hal, hvl]
          refine ⟨⟨([initEv t cnt, connectEv, retrievedEv (a :: rest).length,
              startAnalyzeEv] ++ aEvs) ++ [analysisDoneEv, startValidateEv],
              vEvs ++ [Event.error (internalErrMsg msg)], ?_, ?_, ?_⟩,
            ⟨(a :: rest).length, k1, ?_⟩, ⟨pairs.length, k2, ?_⟩⟩
          · rw [hrun]
            simp [List.append_assoc]
          · rw [List.forall_mem_append, List.forall_mem_append]
            refine ⟨⟨?_, ?_⟩, ?_⟩
            · intro e he
              fin_cases he <;> rfl
            · rw [haevs]
              exact validate_false_analyzeLogs k1 1 (a :: rest).length
            · intro e he
              fin_cases he <;> rfl
          · rw [List.forall_mem_append]
            refine ⟨?_, ?_⟩
            · rw [hvevs]
              exact analyze_false_validateLogs k2 1 pairs.length
            · intro e he
              fin_cases he <;> rfl
          · rw [hrun, List.filter_append, List.filter_append, List.filter_append,
              List.filter_append, haevs, hvevs, filter_analyze_self,
              filter_analyze_on_validateLogs]
            have h1 : List.filter isAnalyzeArticleEv [initEv t cnt, connectEv,
                retrievedEv (a :: rest).length, startAnalyzeEv] = [] := rfl
            have h2 : List.filter isAnalyzeArticleEv
                [analysisDoneEv, startValidateEv] = [] := rfl
            have h3 : List.filter isAnalyzeArticleEv
                [Event.error (internalErrMsg msg)] = [] := rfl
            rw [h1, h2, h3]
            simp
          · rw [hrun, List.filter_append, List.filter_append, List.filter_append,
              List.filter_append, haevs, hvevs, filter_validate_self,
              filter_validate_on_analyzeLogs]
            have h1 : List.filter isValidateArticleEv [initEv t cnt, connectEv,
                retrievedEv (a :: rest).length, startAnalyzeEv] = [] := rfl
            have h2 : List.filter isValidateArticleEv
                [analysisDoneEv, startValidateEv] = [] := rfl
            have h3 : List.filter isValidateArticleEv
                [Event.error (internalErrMsg msg)] = [] := rfl
            rw [h1, h2, h3]
            simp
        | none =>
          have hrun : run c t cnt
              = ((([initEv t cnt, connectEv, retrievedEv (a :: rest).length,
                  startAnalyzeEv] ++ aEvs) ++ [analysisDoneEv, startValidateEv])
                  ++ vEvs) ++ [allValidatedEv, pipelineCompleteEv,
                    Event.result finals, Event.full_result fulls (a :: rest),
                    Event.close] := by
            simp only [run, hf, hF, if_false, hal, hvl]
          refine ⟨⟨([initEv t cnt, connectEv, retrievedEv (a :: rest).length,
              startAnalyzeEv] ++ aEvs) ++ [analysisDoneEv, startValidateEv],
              vEvs ++ [allValidatedEv, pipelineCompleteEv, Event.result finals,
                Event.full_result fulls (a :: rest), Event.close], ?_, ?_, ?_⟩,
            ⟨(a :: rest).length, k1, ?_⟩, ⟨pairs.length, k2, ?_⟩⟩
          · rw [hrun]
            simp [List.append_assoc]
          · rw [List.forall_mem_append, List.forall_mem_append]
            refine ⟨⟨?_, ?_⟩, ?_⟩
            · intro e he
              fin_cases he <;> rfl
            · rw [haevs]
              exact validate_false_analyzeLogs k1 1 (a :: rest).length
            · intro e he
              fin_cases he <;> rfl
          · rw [List.forall_mem_append]
            refine ⟨?_, ?_⟩
            · rw [hvevs]
              exact analyze_false_validateLogs k2 1 pairs.length
            · intro e he
              fin_cases he <;> rfl
          · rw [hrun, List.filter_append, List.filter_append, List.filter_append,
              List.filter_append, haevs, hvevs, filter_analyze_self,
              filter_analyze_on_validateLogs]
            have h1 : List.filter isAnalyzeArticleEv [initEv t cnt, connectEv,
                retrievedEv (a :: rest).length, startAnalyzeEv] = [] := rfl
            have h2 : List.filter isAnalyzeArticleEv
                [analysisDoneEv, startValidateEv] = [] := rfl
            have h3 : List.filter isAnalyzeArticleEv
                [allValidatedEv, pipelineCompleteEv, Event.result finals,
                  Event.full_result fulls (a :: rest), Event.close] = [] := rfl
            rw [h1, h2, h3]
            simp
          · rw [hrun, List.filter_append, List.filter_append, List.filter_append,
              List.filter_append, haevs, hvevs, filter_validate_self,
              filter_validate_on_analyzeLogs]
            have h1 : List.filter isValidateArticleEv [initEv t cnt, connectEv,
                retrievedEv (a :: rest).length, startAnalyzeEv] = [] := rfl
            have h2 : List.filter isValidateArticleEv
                [analysisDoneEv, startValidateEv] = [] := rfl
            have h3 : List.filter isValidateArticleEv
                [allValidatedEv, pipelineCompleteEv, Event.result finals,
                  Event.full_result fulls (a :: rest), Event.close] = [] := rfl
            rw [h1, h2, h3]
            simp

/-! ## Claim C9 -/

theorem processResponse_length (r : HttpResponse) (num : Nat) :
    (processResponse r num).length ≤ num := by
  unfold processResponse
  by_cases h4 : 400 ≤ r.status_code
  · simp [h4]
  · by_cases hs : r.body.status ≠ some "ok"
    · simp [h4, hs]
    · simp only [h4, hs, if_false, if_neg]
      calc (((r.body.articles.getD []).filterMap cleanArticle).take num).length
          ≤ num := by
            rw [List.length_take]
            exact Nat.min_le_left _ _

theorem processResponse_nonok (r : HttpResponse) (num : Nat)
    (h : r.body.status ≠ some "ok") : processResponse r num = [] := by
  unfold processResponse
  by_cases h4 : 400 ≤ r.status_code
  · simp [h4]
  · simp [h4, h]

/-- C9: the fetcher model never raises (it is a total function into article
lists): its result never exceeds the requested count; it issues a second GET
exactly when the first response is an explicit HTTP 429 rate-limit signal (and
never a third); and every unrecoverable error — timeout, request error,
unexpected exception, an HTTP error status, or a non-ok API status — yields
the empty list. -/
theorem C9_fetch_contract (g1 g2 : GetResult) (num : Nat) :
    (fetch_news g1 g2 num).1.length ≤ num ∧
    ((fetch_news g1 g2 num).2 = 2 ↔ ∃ r, g1 = .ok r ∧ r.status_code = 429) ∧
    ((fetch_news g1 g2 num).2 = 1 ∨ (fetch_news g1 g2 num).2 = 2) ∧
    (g1 = .timeout → (fetch_news g1 g2 num).1 = []) ∧
    (∀ m, g1 = .requestError m → (fetch_news g1 g2 num).1 = []) ∧
    (∀ m, g1 = .otherExn m → (fetch_news g1 g2 num).1 = []) ∧
    (∀ r, g1 = .ok r → r.status_code ≠ 429 → 400 ≤ r.status_code →
      (fetch_news g1 g2 num).1 = []) ∧
    (∀ r, g1 = .ok r → r.status_code ≠ 429 → r.body.status ≠ some "ok" →
      (fetch_news g1 g2 num).1 = []) := by
  cases g1 with
  | ok r1 =>
    by_cases h429 : r1.status_code = 429
    · have hfetch : fetch_news (GetResult.ok r1) g2 num
          = ((match g2 with
              | .ok r2 => processResponse r2 num
              | _ => []), 2) := by
        simp [fetch_news, h429]
      rw [hfetch]
      refine ⟨?_, ?_, Or.inr rfl, (fun h => by cases h), (fun m h => by cases h),
        (fun m h => by cases h), ?_, ?_⟩
      · cases g2 with
        | ok r2 => exact processResponse_length r2 num
        | timeout => simp
        | requestError m => simp
        | otherExn m => simp
      · exact ⟨fun _ => ⟨r1, rfl, h429⟩, fun _ => rfl⟩
      · intro r h h1 _
        cases h
        exact absurd h429 h1
      · intro r h h1 _
        cases h
        exact absurd h429 h1
    · have hfetch : fetch_news (GetResult.ok r1) g2 num
          = (processResponse r1 num, 1) := by
        simp [fetch_news, h429]
      rw [hfetch]
      refine ⟨processResponse_length r1 num, ?_, Or.inl rfl,
        (fun h => by cases h), (fun m h => by cases h), (fun m h => by cases h), ?_, ?_⟩
      · constructor
        · intro h
          cases h
        · rintro ⟨r, hr, h429r⟩
          cases hr
          exact absurd h429r h429
      · intro r h _ h400
        cases h
        unfold processResponse
        simp [h400]
      · intro r h _ hs
        cases h
        exact processResponse_nonok r1 num hs
  | timeout =>
    refine ⟨by simp [fetch_news], ?_, Or.inl rfl, fun _ => rfl,
      (fun m h => by cases h), (fun m h => by cases h),
      (fun r h => by cases h), (fun r h => by cases h)⟩
    constructor
    · intro h
      simp [fetch_news] at h
    · rintro ⟨r, hr, _⟩
      cases hr
  | requestError m0 =>
    refine ⟨by simp [fetch_news], ?_, Or.inl rfl, (fun h => by cases h),
      fun m h => rfl, (fun m h => by cases h),
      (fun r h => by cases h), (fun r h => by cases h)⟩
    constructor
    · intro h
      simp [fetch_news] at h
    · rintro ⟨r, hr, _⟩
      cases hr
  | otherExn m0 =>
    refine ⟨by simp [fetch_news], ?_, Or.inl rfl, (fun h => by cases h),
      (fun m h => by cases h), fun m h => rfl,
      (fun r h => by cases h), (fun r h => by cases h)⟩
    constructor
    · intro h
      simp [fetch_news] at h
    · rintro ⟨r, hr, _⟩
      cases hr

/-- Witness for C9: a timed-out first call returns the empty list, and a 429
first response issues exactly two GET calls. -/
theorem C9_witness :
    (fetch_news GetResult.timeout GetResult.timeout 5).1 = [] ∧
    (fetch_news (GetResult.ok ⟨429, ⟨some "ok", none, none⟩⟩)
        GetResult.timeout 5).2 = 2 :=
  ⟨(C9_fetch_contract GetResult.timeout GetResult.timeout 5).2.2.2.1 rfl,
   (C9_fetch_contract (GetResult.ok ⟨429, ⟨some "ok", none, none⟩⟩)
      GetResult.timeout 5).2.1.mpr ⟨⟨429, ⟨some "ok", none, none⟩⟩, rfl, rfl⟩⟩

/-! ## Claim C10 -/

/-- C10: every value yielded by `run`, in every branch including the error
branch, is the dictionary with exactly the keys `event` and `data`, where the
`event` kind is one of log, result, full_result, error, close and the `data`
string is the serialization of a JSON value. -/
theorem C10_event_shape (c : Collab) (t : String) (cnt : Nat) (e : Event)
    (he : e ∈ run c t cnt) :
    Event.kind e ∈ ["log", "result", "full_result", "error", "close"] ∧
    (eventDict e).1 = Event.kind e ∧
    ValidJson (eventDict e).2 := by
  refine ⟨?_, rfl, ⟨eventData e, rfl⟩⟩
  cases e with
  | log m s =>
    show ("log" : String) ∈ ["log", "result", "full_result", "error", "close"]
    decide
  | result arts =>
    show ("result" : String) ∈ ["log", "result", "full_result", "error", "close"]
    decide
  | full_result fulls raw =>
    show ("full_result" : String) ∈ ["log", "result", "full_result", "error", "close"]
    decide
  | error m =>
    show ("error" : String) ∈ ["log", "result", "full_result", "error", "close"]
    decide
  | close =>
    show ("close" : String) ∈ ["log", "result", "full_result", "error", "close"]
    decide

/-- Witness for C10 at the `close` event of a concrete successful run. -/
theorem C10_witness :
    Event.kind Event.close ∈ ["log", "result", "full_result", "error", "close"] ∧
    (eventDict Event.close).1 = Event.kind Event.close ∧
    ValidJson (eventDict Event.close).2 :=
  C10_event_shape demoCollab "Technology" 1 Event.close (by decide)
